import Mathlib

/-!
Verification of the CSV transformation engine of `home-server-api`.

The definitions below are a shallow embedding of the TypeScript source:
  * `CsvEngineService` (`buildSample`, `mapToCleaningActions`, `applyActions`)
  * the fixed pre-clean plan and the raw-action field mapping of
    `CsvService.cleanCsv` / `CsvService.analyzeCsv`.

Modelling conventions:
  * JavaScript strings are Lean `String`s (worked on through `String.data`);
    `String.prototype.trim` is modelled by `jsTrim`, using the explicit
    ECMAScript WhiteSpace/LineTerminator code-point list.
  * `Number(string)` / `String(number)` are modelled by `parseJsNum` /
    `jsNumberToString` over exact sign-digits-exponent values.  The grammar
    accepted by `parseJsNum` (decimal literals with optional sign, `Infinity`,
    `0x`/`0o`/`0b` literals) is exactly ECMAScript's string-numeric-literal
    grammar, so `Number.isNaN (Number s)` is modelled faithfully; the numeric
    value is kept exact instead of being rounded to an IEEE-754 binary64, so
    formatted output can differ from JavaScript only where float rounding or
    overflow to `Infinity` would alter the digits.  No claim below depends on
    such digits.
  * JavaScript `number`-typed indices are modelled as `Int` (the claims do not
    turn on fractional or `NaN` indices).
  * The untrusted advisor values (`unknown` in TypeScript) are modelled by the
    `JsValue` tree; reading a property of `null`/`undefined`, which throws a
    `TypeError` in JavaScript, is modelled by `Except.error`.
-/

/-- The ECMAScript WhiteSpace and LineTerminator code points, as used by
`String.prototype.trim`. -/
def isJsWs (c : Char) : Bool :=
  let n := c.toNat
  (0x9 ≤ n && n ≤ 0xD) || n = 0x20 || n = 0xA0 || n = 0x1680 ||
  (0x2000 ≤ n && n ≤ 0x200A) || n = 0x2028 || n = 0x2029 ||
  n = 0x202F || n = 0x205F || n = 0x3000 || n = 0xFEFF

/-- Strip leading JS whitespace from a character list. -/
def jsTrimLeft (l : List Char) : List Char := l.dropWhile isJsWs

/-- Strip trailing JS whitespace from a character list. -/
def jsTrimRight (l : List Char) : List Char :=
  (l.reverse.dropWhile isJsWs).reverse

/-- Model of `String.prototype.trim` on character lists. -/
def jsTrimList (l : List Char) : List Char := jsTrimRight (jsTrimLeft l)

/-- Model of `String.prototype.trim`. -/
def jsTrim (s : String) : String := ⟨jsTrimList s.data⟩

/-- One step of `text.split(/\r?\n/)`: prepend a character to the first line. -/
def consHeadLine (c : Char) : List (List Char) → List (List Char)
  | l :: ls => (c :: l) :: ls
  | [] => [[c]]

/-- Model of `text.split(/\r?\n/)` on character lists (the line-splitting rule
shared by `buildSample` and `parseCsv`). -/
def splitLinesCh : List Char → List (List Char)
  | [] => [[]]
  | '\n' :: rest => [] :: splitLinesCh rest
  | '\r' :: '\n' :: rest => [] :: splitLinesCh rest
  | c :: rest => consHeadLine c (splitLinesCh rest)

/-- Model of `lines.join('\n')`: concatenate lines with a single `'\n'`
between adjacent lines. -/
def joinLF : List (List Char) → List Char
  | [] => []
  | [l] => l
  | l :: ls => l ++ '\n' :: joinLF ls

/-- Model of `CsvEngineService.buildSample`: split on `/\r?\n/`, keep the
first `maxLines` lines, join with `'\n'`. -/
def buildSample (csv : String) (maxLines : ℕ) : String :=
  ⟨joinLF ((splitLinesCh csv.data).take maxLines)⟩

/-- `true` when the character list contains no `"\r\n"` pair (so the
`/\r?\n/` split and the `'\n'` join of `buildSample` are inverse on it). -/
def noCRLF : List Char → Bool
  | '\r' :: '\n' :: _ => false
  | _ :: rest => noCRLF rest
  | [] => true

/-! ### The ECMAScript `Number(string)` conversion and `String(number)` -/

/-- An exact JavaScript numeric value: `fin neg s e` denotes `±(s · 10^e)`,
`inf neg` denotes `±Infinity`. -/
inductive JsVal where
  | fin (neg : Bool) (s : ℕ) (e : ℤ)
  | inf (neg : Bool)
deriving DecidableEq

/-- Decimal digit test (the `DecimalDigit` characters `'0'`..`'9'`). -/
def isDigitCh (c : Char) : Bool :=
  (c == '0') || (c == '1') || (c == '2') || (c == '3') || (c == '4') ||
  (c == '5') || (c == '6') || (c == '7') || (c == '8') || (c == '9')

/-- Numeric value of a decimal digit list (most significant first). -/
def natOfDigits (ds : List Char) : ℕ :=
  ds.foldl (fun n c => n * 10 + (c.toNat - 48)) 0

/-- Split a numeric literal body at the first `e`/`E`
(the exponent marker of the decimal grammar). -/
def splitExp (l : List Char) : List Char × Option (List Char) :=
  match l.span (fun c => !(c = 'e' || c = 'E')) with
  | (m, []) => (m, none)
  | (m, _ :: rest) => (m, some rest)

/-- Parse the mantissa of a decimal literal (`digits`, `digits.digits?`,
`.digits`) into significand and scale. -/
def parseDecMantissa (l : List Char) : Option (ℕ × ℤ) :=
  let ip := l.takeWhile isDigitCh
  let rest := l.dropWhile isDigitCh
  match rest with
  | [] => if ip = [] then none else some (natOfDigits ip, 0)
  | '.' :: frac =>
    if frac.all isDigitCh then
      if ip = [] then
        if frac = [] then none else some (natOfDigits frac, -(frac.length : ℤ))
      else some (natOfDigits (ip ++ frac), -(frac.length : ℤ))
    else none
  | _ => none

/-- Parse the exponent part of a decimal literal (optionally signed digits). -/
def parseExpPart (l : List Char) : Option ℤ :=
  match l with
  | '+' :: ds =>
    if ds ≠ [] ∧ ds.all isDigitCh then some (natOfDigits ds) else none
  | '-' :: ds =>
    if ds ≠ [] ∧ ds.all isDigitCh then some (-(natOfDigits ds : ℤ)) else none
  | ds =>
    if ds ≠ [] ∧ ds.all isDigitCh then some (natOfDigits ds) else none

/-- Parse an unsigned decimal literal (mantissa plus optional exponent). -/
def parseDec (l : List Char) : Option (ℕ × ℤ) :=
  match parseDecMantissa (splitExp l).1 with
  | none => none
  | some (s, e) =>
    match (splitExp l).2 with
    | none => some (s, e)
    | some ex =>
      match parseExpPart ex with
      | none => none
      | some k => some (s, e + k)

/-- Parse the body of a signed decimal literal: `Infinity` or a decimal. -/
def parseUnsignedBody (neg : Bool) (r : List Char) : Option JsVal :=
  if r = "Infinity".data then some (.inf neg)
  else (parseDec r).map (fun p => .fin neg p.1 p.2)

/-- Parse an optionally signed decimal literal or `Infinity`. -/
def parseDecSigned (l : List Char) : Option JsVal :=
  match l with
  | '+' :: r => parseUnsignedBody false r
  | '-' :: r => parseUnsignedBody true r
  | r => parseUnsignedBody false r

/-- Hexadecimal digit test. -/
def isHexDigit (c : Char) : Bool :=
  c.isDigit || ('a' ≤ c && c ≤ 'f') || ('A' ≤ c && c ≤ 'F')

/-- Hexadecimal digit value. -/
def hexVal (c : Char) : ℕ :=
  if c.isDigit then c.toNat - 48
  else if 'a' ≤ c && c ≤ 'f' then c.toNat - 87
  else c.toNat - 55

/-- Numeric value of a digit list in base `b`. -/
def natOfBase (b : ℕ) (val : Char → ℕ) (ds : List Char) : ℕ :=
  ds.foldl (fun n c => n * b + val c) 0

/-- Model of the ECMAScript `Number(string)` conversion on an
already-trimmed character list.  `none` means the conversion yields `NaN`. -/
def parseJsNum (l : List Char) : Option JsVal :=
  match l with
  | '0' :: c :: rest =>
    if c = 'x' || c = 'X' then
      if rest ≠ [] ∧ rest.all isHexDigit then
        some (.fin false (natOfBase 16 hexVal rest) 0)
      else none
    else if c = 'o' || c = 'O' then
      if rest ≠ [] ∧ rest.all (fun d => '0' ≤ d && d ≤ '7') then
        some (.fin false (natOfBase 8 (fun d => d.toNat - 48) rest) 0)
      else none
    else if c = 'b' || c = 'B' then
      if rest ≠ [] ∧ rest.all (fun d => d = '0' || d = '1') then
        some (.fin false (natOfBase 2 (fun d => d.toNat - 48) rest) 0)
      else none
    else parseDecSigned l
  | _ => parseDecSigned l

/-- The decimal digit character for `d < 10`. -/
def digitChar10 (d : ℕ) : Char :=
  match d with
  | 0 => '0' | 1 => '1' | 2 => '2' | 3 => '3' | 4 => '4'
  | 5 => '5' | 6 => '6' | 7 => '7' | 8 => '8' | _ => '9'

/-- Decimal digit list of a natural number, most significant first
(fuel-based so that the kernel can evaluate it). -/
def natDigitsFuel : ℕ → ℕ → List Char
  | 0, _ => []
  | fuel + 1, n =>
    if n < 10 then [digitChar10 n]
    else natDigitsFuel fuel (n / 10) ++ [digitChar10 (n % 10)]

/-- Decimal digit list of a natural number, most significant first. -/
def natDigits (n : ℕ) : List Char := natDigitsFuel (n + 1) n

/-- Strip trailing `'0'` characters, returning the stripped list and the
number of characters removed. -/
def stripTrailingZerosD (D : List Char) : List Char × ℕ :=
  let D' := (D.reverse.dropWhile (fun c => c = '0')).reverse
  (D', D.length - D'.length)

/-- The positional/exponential digit layout of `Number::toString(10)` for the
value whose stripped significant digits are `D'` and whose decimal point
position is `n` (the ECMAScript `n` with `k = D'.length` digits). -/
def jsFormatBody (D' : List Char) (n : ℤ) : List Char :=
  let k : ℤ := (D'.length : ℤ)
  if k ≤ n ∧ n ≤ 21 then D' ++ List.replicate (n - k).toNat '0'
  else if 0 < n ∧ n ≤ 21 then D'.take n.toNat ++ '.' :: D'.drop n.toNat
  else if -6 < n ∧ n ≤ 0 then '0' :: '.' :: (List.replicate (-n).toNat '0' ++ D')
  else
    let es := (if n - 1 < 0 then ['-'] else ['+']) ++ natDigits (n - 1).natAbs
    match D' with
    | [d] => d :: 'e' :: es
    | d :: ds => d :: '.' :: (ds ++ 'e' :: es)
    | [] => ['0']

/-- The ECMAScript `Number::toString(10)` digits for the exact value
`±(s · 10^e)`. -/
def jsFormatFin (neg : Bool) (s : ℕ) (e : ℤ) : List Char :=
  if s = 0 then ['0'] else
  let p := stripTrailingZerosD (natDigits s)
  (if neg then ['-'] else []) ++
    jsFormatBody p.1 (e + (p.2 : ℤ) + (p.1.length : ℤ))

/-- Model of the ECMAScript `String(number)` conversion. -/
def jsNumberToString : JsVal → String
  | .fin neg s e => ⟨jsFormatFin neg s e⟩
  | .inf neg => if neg then "-Infinity" else "Infinity"

/-! ### The cleaning actions and the interpreter (`CsvEngineService.applyActions`) -/

/-- `CleaningMode` of `csv-engine.service`. -/
inductive CleaningMode where
  | dropRow
  | padWithEmpty
deriving DecidableEq

/-- `CoerceOnError` of `csv-engine.service`. -/
inductive CoerceOnError where
  | dropRow
  | setNull
  | setZero
deriving DecidableEq

/-- The closed `CleaningAction` union of `csv-engine.service`. -/
inductive CleaningAction where
  | trimWhitespace
  | stripWrappingQuotes
  | ensureEqualColumns (mode : CleaningMode)
  | removeEmptyRows
  | coerceNumeric (columnIndex : ℤ) (onError : CoerceOnError)
deriving DecidableEq

/-- `ApplyActionsResult` of `csv-engine.service`. -/
structure ApplyActionsResult where
  rows : List (List String)
  rowsChanged : ℕ
  rowsDropped : ℕ
deriving DecidableEq

/-- Column count of the first row (`workingRows[0].length`, `0` when empty). -/
def headLen : List (List String) → ℕ
  | [] => 0
  | r :: _ => r.length

/-- `TRIM_WHITESPACE` over one row: trimmed cells plus the number of cells
whose trimmed value differs. -/
def trimRowCount : List String → List String × ℕ
  | [] => ([], 0)
  | c :: cs =>
    let p := trimRowCount cs
    let t := jsTrim c
    (t :: p.1, (if t = c then 0 else 1) + p.2)

/-- `TRIM_WHITESPACE` over the whole table. -/
def trimTableCount : List (List String) → List (List String) × ℕ
  | [] => ([], 0)
  | r :: rs =>
    let p := trimRowCount r
    let q := trimTableCount rs
    (p.1 :: q.1, p.2 + q.2)

/-- The `STRIP_WRAPPING_QUOTES` test: trimmed value has length at least 2 and
begins and ends with a double quote. -/
def isWrappedCell (cell : String) : Bool :=
  let t := jsTrim cell
  decide (2 ≤ t.length) && t.data.head? == some '"' && t.data.getLast? == some '"'

/-- `STRIP_WRAPPING_QUOTES` over one cell: the quoted interior of the trimmed
value when wrapped (counting 1), the original cell otherwise. -/
def stripCellCount (cell : String) : String × ℕ :=
  if isWrappedCell cell then (⟨((jsTrim cell).data.drop 1).dropLast⟩, 1)
  else (cell, 0)

/-- `STRIP_WRAPPING_QUOTES` over one row. -/
def stripRowCount : List String → List String × ℕ
  | [] => ([], 0)
  | c :: cs =>
    let p := stripCellCount c
    let q := stripRowCount cs
    (p.1 :: q.1, p.2 + q.2)

/-- `STRIP_WRAPPING_QUOTES` over the whole table. -/
def stripTableCount : List (List String) → List (List String) × ℕ
  | [] => ([], 0)
  | r :: rs =>
    let p := stripRowCount r
    let q := stripTableCount rs
    (p.1 :: q.1, p.2 + q.2)

/-- `ENSURE_EQUAL_COLUMNS` body, with the `expectedColumns` snapshot as an
argument: result rows, rows changed, rows dropped. -/
def ensureAux (mode : CleaningMode) (expected : ℕ) :
    List (List String) → List (List String) × ℕ × ℕ
  | [] => ([], 0, 0)
  | row :: rest =>
    let q := ensureAux mode expected rest
    if row.length = expected then (row :: q.1, q.2.1, q.2.2)
    else if mode = .padWithEmpty ∧ row.length < expected then
      ((row ++ List.replicate (expected - row.length) "") :: q.1, q.2.1 + 1, q.2.2)
    else if mode = .dropRow then (q.1, q.2.1, q.2.2 + 1)
    else (row.take expected :: q.1, q.2.1 + 1, q.2.2)

/-- One `ENSURE_EQUAL_COLUMNS` action: `expectedColumns` is the column count
of the current first row at the moment the action runs. -/
def ensureStep (mode : CleaningMode) (rows : List (List String)) :
    List (List String) × ℕ × ℕ :=
  ensureAux mode (headLen rows) rows

/-- The `REMOVE_EMPTY_ROWS` emptiness rule: examine all cells past the first
column when the row has more than one column, otherwise the whole row; the
row counts as empty when all examined cells trim to nothing. -/
def rowConsideredEmpty (row : List String) : Bool :=
  let startCol := if 1 < row.length then 1 else 0
  (row.drop startCol).all (fun c => (jsTrim c).length = 0)

/-- `REMOVE_EMPTY_ROWS` over the non-exempt rows. -/
def removeAux : List (List String) → List (List String) × ℕ
  | [] => ([], 0)
  | row :: rest =>
    let q := removeAux rest
    if rowConsideredEmpty row then (q.1, q.2 + 1) else (row :: q.1, q.2)

/-- One `REMOVE_EMPTY_ROWS` action: row 0 is exempt when `hasHeader`. -/
def removeStep (hasHeader : Bool) (rows : List (List String)) :
    List (List String) × ℕ :=
  match hasHeader, rows with
  | true, r :: rest =>
    let q := removeAux rest
    (r :: q.1, q.2)
  | _, _ => removeAux rows

/-- First data row index (`1` when `hasHeader`, else `0`). -/
def dataStart (hasHeader : Bool) : ℕ := if hasHeader then 1 else 0

/-- `COERCE_NUMERIC` over one row: `none` when the row is dropped, otherwise
the (possibly rewritten) row; plus the changed/dropped deltas. -/
def coerceRow (c : ℤ) (onErr : CoerceOnError) (row : List String) :
    Option (List String) × ℕ × ℕ :=
  if c < 0 ∨ (row.length : ℤ) ≤ c then (some row, 0, 0)
  else
    let idx := c.toNat
    let value := row.getD idx ""
    let trimmed := jsTrim value
    if trimmed.length = 0 then (some row, 0, 0)
    else
      match parseJsNum trimmed.data with
      | none =>
        match onErr with
        | .dropRow => (none, 0, 1)
        | .setNull => (some (row.set idx ""), 1, 0)
        | .setZero => (some (row.set idx "0"), 1, 0)
      | some v =>
        let sstr := jsNumberToString v
        if sstr = value then (some row, 0, 0) else (some (row.set idx sstr), 1, 0)

/-- `COERCE_NUMERIC` over the data rows. -/
def coerceAux (c : ℤ) (onErr : CoerceOnError) :
    List (List String) → List (List String) × ℕ × ℕ
  | [] => ([], 0, 0)
  | row :: rest =>
    let p := coerceRow c onErr row
    let q := coerceAux c onErr rest
    match p.1 with
    | some row' => (row' :: q.1, p.2.1 + q.2.1, p.2.2 + q.2.2)
    | none => (q.1, p.2.1 + q.2.1, p.2.2 + q.2.2)

/-- One `COERCE_NUMERIC` action: rows before the data-start index are kept
untouched. -/
def coerceStep (hasHeader : Bool) (c : ℤ) (onErr : CoerceOnError)
    (rows : List (List String)) : List (List String) × ℕ × ℕ :=
  let s := dataStart hasHeader
  let q := coerceAux c onErr (rows.drop s)
  (rows.take s ++ q.1, q.2.1, q.2.2)

/-- One action of the interpreter loop of `applyActions`:
new table, rows-changed delta, rows-dropped delta. -/
def applyAction (hasHeader : Bool) (t : List (List String)) :
    CleaningAction → List (List String) × ℕ × ℕ
  | .trimWhitespace =>
    let p := trimTableCount t
    (p.1, p.2, 0)
  | .stripWrappingQuotes =>
    let p := stripTableCount t
    (p.1, p.2, 0)
  | .ensureEqualColumns m => ensureStep m t
  | .removeEmptyRows =>
    let p := removeStep hasHeader t
    (p.1, 0, p.2)
  | .coerceNumeric c e => coerceStep hasHeader c e t

/-- Model of `CsvEngineService.applyActions`: run the actions in order,
threading the table and summing the changed/dropped counters. -/
def applyActions (rows : List (List String)) (actions : List CleaningAction)
    (hasHeader : Bool) : ApplyActionsResult :=
  match actions with
  | [] => ⟨rows, 0, 0⟩
  | a :: rest =>
    let p := applyAction hasHeader rows a
    let r := applyActions p.1 rest hasHeader
    ⟨r.rows, p.2.1 + r.rowsChanged, p.2.2 + r.rowsDropped⟩

/-- The fixed pre-clean plan of `CsvService.cleanCsv`, in its exact order. -/
def preCleanPlan : List CleaningAction :=
  [.stripWrappingQuotes, .trimWhitespace, .removeEmptyRows,
   .ensureEqualColumns .padWithEmpty]

/-! ### The untrusted advisor values and the normalizers -/

/-- A JavaScript value as it can appear in the advisor's action list
(`unknown` in the source). -/
inductive JsValue where
  | null
  | undefinedVal
  | bool (b : Bool)
  | num (n : ℤ)
  | str (s : String)
  | arr (elems : List JsValue)
  | obj (fields : List (String × JsValue))

/-- JavaScript property read `v[k]`: throws (`Except.error`) on `null` and
`undefined`, looks the key up on objects, yields `undefined` otherwise. -/
def getProp : JsValue → String → Except Unit JsValue
  | .null, _ => .error ()
  | .undefinedVal, _ => .error ()
  | .obj fs, k => .ok ((fs.lookup k).getD .undefinedVal)
  | _, _ => .ok .undefinedVal

/-- Model of `CsvEngineService.mapToCleaningActions`: normalize the untrusted
action list, silently skipping unrecognized or malformed candidates.  Reading
`obj.type` (and the per-kind fields) of a candidate uses `getProp`, so a
`null`/`undefined` candidate makes the whole call throw, as in JavaScript. -/
def mapToCleaningActions : List JsValue → Except Unit (List CleaningAction)
  | [] => .ok []
  | a :: rest => do
    let t ← getProp a "type"
    match t with
    | .str s =>
      if s = "TRIM_WHITESPACE" then do
        let r ← mapToCleaningActions rest
        .ok (.trimWhitespace :: r)
      else if s = "STRIP_WRAPPING_QUOTES" then do
        let r ← mapToCleaningActions rest
        .ok (.stripWrappingQuotes :: r)
      else if s = "ENSURE_EQUAL_COLUMNS" then do
        let m ← getProp a "mode"
        let mode : CleaningMode :=
          match m with
          | .str "pad-with-empty" => .padWithEmpty
          | _ => .dropRow
        let r ← mapToCleaningActions rest
        .ok (.ensureEqualColumns mode :: r)
      else if s = "REMOVE_EMPTY_ROWS" then do
        let r ← mapToCleaningActions rest
        .ok (.removeEmptyRows :: r)
      else if s = "COERCE_NUMERIC" then do
        let ci ← getProp a "columnIndex"
        match ci with
        | .num n => do
          let oe ← getProp a "onError"
          let onError : CoerceOnError :=
            match oe with
            | .str "set-null" => .setNull
            | .str "set-zero" => .setZero
            | .str "drop-row" => .dropRow
            | _ => .dropRow
          let r ← mapToCleaningActions rest
          .ok (.coerceNumeric n onError :: r)
        | _ => mapToCleaningActions rest
      else mapToCleaningActions rest
    | _ => mapToCleaningActions rest

/-- The `AnalyzeCsvAction` record produced by `CsvService.analyzeCsv`. -/
structure AnalyzeAction where
  type : String
  columnIndex : Option ℤ
deriving DecidableEq

/-- `String(n)` for an integer JavaScript number. -/
def jsStringOfInt (n : ℤ) : String :=
  jsNumberToString (.fin (decide (n < 0)) n.natAbs 0)

/-- Model of the per-action mapping of `CsvService.analyzeCsv`: `type` becomes
the string itself, the `String(...)` form of a number or boolean, or
`"unknown"`; the column index accepts the `column_index` spelling first, then
`columnIndex`, and only numeric values. -/
def analyzeActionOfRaw (a : JsValue) : Except Unit AnalyzeAction := do
  let t ← getProp a "type"
  let type : String :=
    match t with
    | .str s => s
    | .num n => jsStringOfInt n
    | .bool b => if b then "true" else "false"
    | _ => "unknown"
  let c1 ← getProp a "column_index"
  let c2 ← getProp a "columnIndex"
  let columnIndex : Option ℤ :=
    match c1 with
    | .num n => some n
    | _ =>
      match c2 with
      | .num n => some n
      | _ => none
  .ok ⟨type, columnIndex⟩

/-- The JavaScript object `{ type, columnIndex }` that `cleanCsv` hands from
the `analyzeCsv` plan to `mapToCleaningActions`. -/
def analyzeActionToJs (x : AnalyzeAction) : JsValue :=
  .obj [("type", .str x.type),
        ("columnIndex", match x.columnIndex with | some n => .num n | none => .undefinedVal)]

/-- The per-element action mapping of `analyzeCsv` over the whole raw list
(in order, stopping at the first thrown `TypeError`, as `Array.map` does). -/
def mapAnalyzeList : List JsValue → Except Unit (List AnalyzeAction)
  | [] => .ok []
  | a :: rest => do
    let x ← analyzeActionOfRaw a
    let xs ← mapAnalyzeList rest
    .ok (x :: xs)

/-- The composed normalization path of `cleanCsv`: map the raw candidates as
`analyzeCsv` does, then normalize with `mapToCleaningActions`. -/
def analyzedThenNormalized (raw : List JsValue) : Except Unit (List CleaningAction) := do
  let xs ← mapAnalyzeList raw
  mapToCleaningActions (xs.map analyzeActionToJs)

/-! ### Counterexamples and concrete evaluations -/

/-- C1 counterexample: the fixed pre-clean plan is not idempotent.  On the
one-cell table `[[ "\x22\x22\x22\x22" ]]` (four double-quote characters) the
first pass strips one layer of wrapping quotes, leaving the cell `"\x22\x22"`;
the second pass strips again (`rowsChanged = 1`), which empties the cell, and
`REMOVE_EMPTY_ROWS` of the same second pass then drops the row
(`rowsDropped = 1`) — contradicting `rowsChanged = rowsDropped = 0`. -/
theorem preclean_not_idempotent :
    (applyActions (applyActions [["\"\"\"\""]] preCleanPlan false).rows
      preCleanPlan false).rowsChanged = 1 ∧
    (applyActions (applyActions [["\"\"\"\""]] preCleanPlan false).rows
      preCleanPlan false).rowsDropped = 1 := by
  constructor <;> rfl

/-- C3 counterexample: on `[["x",""],["a","b","c"]]` with `hasHeader = false`
and the plan `[REMOVE_EMPTY_ROWS, ENSURE_EQUAL_COLUMNS(pad-with-empty)]`, the
header row of the pass start has 2 columns, but `REMOVE_EMPTY_ROWS` drops it,
and the `ENSURE_EQUAL_COLUMNS` action then uses the *current* first row's
count 3: the surviving row keeps its 3 columns, so the column count for
column-equalization was not a once-per-pass snapshot of the header row. -/
theorem ensure_expected_not_pass_snapshot :
    (applyActions [["x", ""], ["a", "b", "c"]]
      [.removeEmptyRows, .ensureEqualColumns .padWithEmpty] false).rows
      = [["a", "b", "c"]] ∧
    ¬ ∀ row ∈ (applyActions [["x", ""], ["a", "b", "c"]]
      [.removeEmptyRows, .ensureEqualColumns .padWithEmpty] false).rows,
        row.length = headLen [["x", ""], ["a", "b", "c"]] := by
  constructor
  · rfl
  · intro h
    have hmem : ["a", "b", "c"] ∈ (applyActions [["x", ""], ["a", "b", "c"]]
        [.removeEmptyRows, .ensureEqualColumns .padWithEmpty] false).rows := by
      decide
    have := h ["a", "b", "c"] hmem
    simp [headLen] at this

/-- C6 counterexample: `COERCE_NUMERIC` on the cell `"+5"` does not fail the
parse — `Number("+5")` is `5` — so the `onError` branch (here `drop-row`) is
not applied; the cell is canonicalized to `"5"` instead. -/
theorem coerce_plus_five_not_dropped :
    applyActions [["+5"]] [.coerceNumeric 0 .dropRow] false
      = ⟨[["5"]], 1, 0⟩ := by
  decide

/-- C9 counterexample: `"a\r\nb"` has two lines (fewer than 50), yet
`buildSample` does not return the text unchanged — the CRLF separator is
rewritten to a bare LF by the join. -/
theorem buildSample_crlf_changed :
    buildSample "a\r\nb" 50 = "a\nb" ∧ buildSample "a\r\nb" 50 ≠ "a\r\nb" := by
  constructor <;> decide

/-- C4 counterexample: a candidate whose column index is spelled
`column_index` (and is numeric) is nevertheless dropped by
`mapToCleaningActions` — only the `columnIndex` spelling is read there. -/
theorem mapToCleaningActions_snake_case_dropped :
    mapToCleaningActions
      [JsValue.obj [("type", .str "COERCE_NUMERIC"), ("column_index", .num 3)]]
      = .ok [] := by
  rfl

/-- C2: `mapToCleaningActions` is not total — a `null` candidate makes the
JavaScript source read `obj.type` of `null`, which throws a `TypeError`
(modelled as `Except.error`), instead of degrading to fewer actions. -/
theorem mapToCleaningActions_throws_on_null :
    mapToCleaningActions [JsValue.null] = .error () := by
  rfl

/-! ### List helper lemmas -/

/-- `takeWhile` keeps a list all of whose elements satisfy the predicate. -/
theorem takeWhile_all {p : Char → Bool} :
    ∀ {l : List Char}, (∀ c ∈ l, p c = true) → l.takeWhile p = l := by
  intro l h
  induction l with
  | nil => rfl
  | cons c cs ih =>
    have hc := h c (by simp)
    have ih' := ih (fun x hx => h x (by simp [hx]))
    simp [List.takeWhile_cons, hc, ih']

/-- `dropWhile` empties a list all of whose elements satisfy the predicate. -/
theorem dropWhile_all_nil {p : Char → Bool} :
    ∀ {l : List Char}, (∀ c ∈ l, p c = true) → l.dropWhile p = [] := by
  intro l h
  induction l with
  | nil => rfl
  | cons c cs ih =>
    have hc := h c (by simp)
    have ih' := ih (fun x hx => h x (by simp [hx]))
    simp [List.dropWhile_cons, hc, ih']

/-- `dropWhile` leaves a list untouched when no element satisfies the
predicate (looking only at the head suffices, but this form is convenient). -/
theorem dropWhile_all_false {p : Char → Bool} :
    ∀ {l : List Char}, (∀ c ∈ l, p c = false) → l.dropWhile p = l := by
  intro l h
  cases l with
  | nil => rfl
  | cons c cs =>
    have hc := h c (by simp)
    simp [List.dropWhile, hc]

/-- `takeWhile` distributes over an all-satisfying front segment. -/
theorem takeWhile_append_all {p : Char → Bool} {l r : List Char}
    (h : ∀ c ∈ l, p c = true) : (l ++ r).takeWhile p = l ++ r.takeWhile p := by
  induction l with
  | nil => rfl
  | cons c cs ih =>
    have hc := h c (by simp)
    have ih' := ih (fun x hx => h x (by simp [hx]))
    simp [List.cons_append, List.takeWhile_cons, hc, ih']

/-- `dropWhile` skips over an all-satisfying front segment. -/
theorem dropWhile_append_all {p : Char → Bool} {l r : List Char}
    (h : ∀ c ∈ l, p c = true) : (l ++ r).dropWhile p = r.dropWhile p := by
  induction l with
  | nil => rfl
  | cons c cs ih =>
    have hc := h c (by simp)
    have ih' := ih (fun x hx => h x (by simp [hx]))
    simp [List.cons_append, List.dropWhile_cons, hc, ih']

/-- Elements kept by `takeWhile` satisfy the predicate. -/
theorem mem_takeWhile_pred {p : Char → Bool} :
    ∀ {l : List Char} {c}, c ∈ l.takeWhile p → p c = true := by
  intro l
  induction l with
  | nil => intro c h; simp [List.takeWhile] at h
  | cons a as ih =>
    intro c h
    by_cases hp : p a = true
    · simp [List.takeWhile_cons, hp] at h
      rcases h with rfl | h
      · exact hp
      · exact ih h
    · simp [List.takeWhile_cons, hp] at h

/-- `l.set` at one index leaves `getD` at other indices unchanged. -/
theorem getD_set_ne (d : String) :
    ∀ (l : List String) (i j : ℕ), i ≠ j → ∀ v,
      (l.set i v).getD j d = l.getD j d := by
  intro l
  induction l with
  | nil => intro i j _ v; simp
  | cons a as ih =>
    intro i j hij v
    cases i with
    | zero =>
      cases j with
      | zero => exact absurd rfl hij
      | succ j' => simp [List.set, List.getD]
    | succ i' =>
      cases j with
      | zero => simp [List.set, List.getD]
      | succ j' =>
        simp only [List.set, List.getD_cons_succ]
        exact ih i' j' (fun h => hij (by rw [h])) v

/-- `l.set` at an in-bounds index makes `getD` there return the new value. -/
theorem getD_set_self (d : String) :
    ∀ (l : List String) (i : ℕ), i < l.length → ∀ v,
      (l.set i v).getD i d = v := by
  intro l
  induction l with
  | nil => intro i h; simp at h
  | cons a as ih =>
    intro i h v
    cases i with
    | zero => simp [List.set, List.getD]
    | succ i' =>
      simp only [List.set, List.getD_cons_succ]
      exact ih i' (by simpa using h) v

/-! ### `jsTrim` lemmas -/

/-- The head surviving `dropWhile` fails the predicate. -/
theorem head_dropWhile_false {p : Char → Bool} :
    ∀ {l : List Char} {c}, (l.dropWhile p).head? = some c → p c = false := by
  intro l
  induction l with
  | nil => intro c h; simp [List.dropWhile] at h
  | cons a as ih =>
    intro c h
    by_cases hp : p a = true
    · rw [List.dropWhile_cons_of_pos hp] at h
      exact ih h
    · have hp' : p a = false := by
        cases hpa : p a
        · rfl
        · exact absurd hpa hp
      rw [List.dropWhile_cons_of_neg hp] at h
      simp at h
      rw [← h]
      exact hp'

/-- `dropWhile` leaves a list whose head fails the predicate untouched. -/
theorem dropWhile_eq_self_of_head {p : Char → Bool} {l : List Char}
    (h : ∀ c, l.head? = some c → p c = false) : l.dropWhile p = l := by
  cases l with
  | nil => rfl
  | cons a as =>
    have := h a rfl
    simp [List.dropWhile_cons, this]

/-- `jsTrimRight` produces a front segment of its input: the input is the
output followed by trailing whitespace. -/
theorem jsTrimRight_decomp (l : List Char) :
    ∃ t, l = jsTrimRight l ++ t ∧ ∀ c ∈ t, isJsWs c = true := by
  refine ⟨(l.reverse.takeWhile isJsWs).reverse, ?_, ?_⟩
  · show l = jsTrimRight l ++ (List.takeWhile isJsWs l.reverse).reverse
    unfold jsTrimRight
    rw [← List.reverse_append, List.takeWhile_append_dropWhile, List.reverse_reverse]
  · intro c hc
    simp only [List.mem_reverse] at hc
    exact mem_takeWhile_pred hc

/-- The head of `jsTrimRight l` is the head of `l` whenever the result is
nonempty. -/
theorem head_jsTrimRight {l : List Char} {c : Char}
    (h : (jsTrimRight l).head? = some c) : l.head? = some c := by
  obtain ⟨t, hdec, -⟩ := jsTrimRight_decomp l
  rw [hdec]
  cases hr : jsTrimRight l with
  | nil => rw [hr] at h; simp at h
  | cons a as => rw [hr] at h; simp at h ⊢; simpa using h

/-- `jsTrimLeft` is idempotent. -/
theorem jsTrimLeft_idem (l : List Char) :
    jsTrimLeft (jsTrimLeft l) = jsTrimLeft l := by
  unfold jsTrimLeft
  exact dropWhile_eq_self_of_head (fun c h => head_dropWhile_false h)

/-- `jsTrimRight` is idempotent. -/
theorem jsTrimRight_idem (l : List Char) :
    jsTrimRight (jsTrimRight l) = jsTrimRight l := by
  unfold jsTrimRight
  rw [List.reverse_reverse]
  rw [dropWhile_eq_self_of_head (fun c h => head_dropWhile_false h)]

/-- `jsTrimLeft` does not disturb a right-trimmed left-trimmed list. -/
theorem jsTrimLeft_jsTrimRight_of_fixed {l : List Char}
    (h : jsTrimLeft l = l) : jsTrimLeft (jsTrimRight l) = jsTrimRight l := by
  unfold jsTrimLeft
  apply dropWhile_eq_self_of_head
  intro c hc
  have hl : l.head? = some c := head_jsTrimRight hc
  have : (l.dropWhile isJsWs).head? = some c := by
    rw [show l.dropWhile isJsWs = l from h]
    exact hl
  exact head_dropWhile_false this

/-- `jsTrimList` is idempotent. -/
theorem jsTrimList_idem (l : List Char) :
    jsTrimList (jsTrimList l) = jsTrimList l := by
  unfold jsTrimList
  have h1 : jsTrimLeft (jsTrimRight (jsTrimLeft l)) = jsTrimRight (jsTrimLeft l) :=
    jsTrimLeft_jsTrimRight_of_fixed (jsTrimLeft_idem l)
  rw [h1, jsTrimRight_idem]

/-- `String.prototype.trim` is idempotent. -/
theorem jsTrim_idem (s : String) : jsTrim (jsTrim s) = jsTrim s := by
  simp [jsTrim, jsTrimList_idem]

/-- A list without whitespace characters is already trimmed. -/
theorem jsTrimList_of_no_ws {l : List Char}
    (h : ∀ c ∈ l, isJsWs c = false) : jsTrimList l = l := by
  unfold jsTrimList jsTrimLeft jsTrimRight
  rw [dropWhile_all_false h]
  rw [dropWhile_all_false (by intro c hc; exact h c (List.mem_reverse.mp hc))]
  exact l.reverse_reverse

/-- A string without whitespace characters is already trimmed. -/
theorem jsTrim_of_no_ws {s : String}
    (h : ∀ c ∈ s.data, isJsWs c = false) : jsTrim s = s := by
  show String.mk (jsTrimList s.data) = s
  rw [jsTrimList_of_no_ws h]

/-! ### Digit character lemmas -/

/-- Enumerate the ten digit characters. -/
theorem isDigitCh_elim {c : Char} (h : isDigitCh c = true) :
    c = '0' ∨ c = '1' ∨ c = '2' ∨ c = '3' ∨ c = '4' ∨
    c = '5' ∨ c = '6' ∨ c = '7' ∨ c = '8' ∨ c = '9' := by
  simp only [isDigitCh, Bool.or_eq_true, beq_iff_eq] at h
  tauto

/-- Digit characters are not whitespace. -/
theorem digit_not_ws {c : Char} (h : isDigitCh c = true) : isJsWs c = false := by
  rcases isDigitCh_elim h with rfl|rfl|rfl|rfl|rfl|rfl|rfl|rfl|rfl|rfl <;> rfl

/-- Digit characters are not the exponent marker. -/
theorem digit_not_expmark {c : Char} (h : isDigitCh c = true) :
    (!(c = 'e' || c = 'E')) = true := by
  rcases isDigitCh_elim h with rfl|rfl|rfl|rfl|rfl|rfl|rfl|rfl|rfl|rfl <;> rfl

/-- Digit characters are not signs. -/
theorem digit_not_sign {c : Char} (h : isDigitCh c = true) :
    c ≠ '+' ∧ c ≠ '-' := by
  rcases isDigitCh_elim h with rfl|rfl|rfl|rfl|rfl|rfl|rfl|rfl|rfl|rfl <;> exact ⟨by decide, by decide⟩

/-- Digit characters are not radix markers. -/
theorem digit_not_radix {c : Char} (h : isDigitCh c = true) :
    (c = 'x' || c = 'X') = false ∧ (c = 'o' || c = 'O') = false ∧
    (c = 'b' || c = 'B') = false := by
  rcases isDigitCh_elim h with rfl|rfl|rfl|rfl|rfl|rfl|rfl|rfl|rfl|rfl <;> exact ⟨rfl, rfl, rfl⟩

/-- `digitChar10` yields digit characters. -/
theorem digitChar10_isDigit (d : ℕ) : isDigitCh (digitChar10 d) = true := by
  unfold digitChar10
  rcases d with _|_|_|_|_|_|_|_|_|_ <;> rfl

/-- With enough fuel, `natDigitsFuel` is nonempty and all digits. -/
theorem natDigitsFuel_spec :
    ∀ (fuel n : ℕ), n < fuel →
      natDigitsFuel fuel n ≠ [] ∧ ∀ c ∈ natDigitsFuel fuel n, isDigitCh c = true := by
  intro fuel
  induction fuel with
  | zero => intro n h; omega
  | succ f ih =>
    intro n h
    by_cases h10 : n < 10
    · constructor
      · simp [natDigitsFuel, h10]
      · intro c hc
        simp [natDigitsFuel, h10] at hc
        rw [hc]
        exact digitChar10_isDigit n
    · have hdiv : n / 10 < f := by
        have h1 : n / 10 < n := Nat.div_lt_self (by omega) (by omega)
        omega
      obtain ⟨hne, hall⟩ := ih (n / 10) hdiv
      constructor
      · simp [natDigitsFuel, h10]
      · intro c hc
        simp only [natDigitsFuel, if_neg h10, List.mem_append, List.mem_singleton] at hc
        rcases hc with hc | rfl
        · exact hall c hc
        · exact digitChar10_isDigit (n % 10)

/-- `natDigits` is nonempty. -/
theorem natDigits_ne_nil (n : ℕ) : natDigits n ≠ [] :=
  (natDigitsFuel_spec (n + 1) n (by omega)).1

/-- `natDigits` consists of digit characters. -/
theorem natDigits_all_digit {n : ℕ} {c : Char} (h : c ∈ natDigits n) :
    isDigitCh c = true :=
  (natDigitsFuel_spec (n + 1) n (by omega)).2 c h

/-- With enough fuel, the leading digit of a positive number is not `'0'`. -/
theorem natDigitsFuel_head_ne_zero :
    ∀ (fuel n : ℕ), n < fuel → 1 ≤ n →
      ∀ c, (natDigitsFuel fuel n).head? = some c → c ≠ '0' := by
  intro fuel
  induction fuel with
  | zero => intro n h; omega
  | succ f ih =>
    intro n h h1 c hc
    by_cases h10 : n < 10
    · simp [natDigitsFuel, h10] at hc
      subst hc
      interval_cases n <;> decide
    · have hdiv : n / 10 < f := by
        have := Nat.div_lt_self (show 0 < n by omega) (show 1 < 10 by omega)
        omega
      have h1' : 1 ≤ n / 10 := Nat.le_div_iff_mul_le (by omega) |>.mpr (by omega)
      obtain ⟨hne, -⟩ := natDigitsFuel_spec f (n / 10) hdiv
      simp only [natDigitsFuel, if_neg h10] at hc
      cases hd : natDigitsFuel f (n / 10) with
      | nil => exact absurd hd hne
      | cons a as =>
        rw [hd] at hc
        simp at hc
        exact ih (n / 10) hdiv h1' c (by rw [hd]; simpa using hc)

/-- The leading digit of `natDigits n` for positive `n` is not `'0'`. -/
theorem natDigits_head_ne_zero {n : ℕ} (h1 : 1 ≤ n) {c : Char}
    (hc : (natDigits n).head? = some c) : c ≠ '0' :=
  natDigitsFuel_head_ne_zero (n + 1) n (by omega) h1 c hc

/-! ### Parse lemmas for formatted numeric output -/

/-- Decomposition of reverse-`dropWhile`: the input is the result followed by
a tail of satisfying characters. -/
theorem revDropWhile_decomp (p : Char → Bool) (l : List Char) :
    ∃ t, l = (l.reverse.dropWhile p).reverse ++ t ∧ ∀ c ∈ t, p c = true := by
  refine ⟨(l.reverse.takeWhile p).reverse, ?_, ?_⟩
  · rw [← List.reverse_append, List.takeWhile_append_dropWhile, List.reverse_reverse]
  · intro c hc
    simp only [List.mem_reverse] at hc
    exact mem_takeWhile_pred hc

/-- A nonempty list whose head is not `'0'` keeps a nonempty core after
stripping trailing zeros, with the same head and a subset of the characters. -/
theorem stripTrailingZerosD_spec {D : List Char} (hne : D ≠ [])
    (hhead : ∀ c, D.head? = some c → c ≠ '0') :
    (stripTrailingZerosD D).1 ≠ [] ∧
    (∀ c ∈ (stripTrailingZerosD D).1, c ∈ D) ∧
    (stripTrailingZerosD D).1.head? = D.head? := by
  obtain ⟨t, hdec, ht⟩ := revDropWhile_decomp (fun c => c = '0') D
  have hD' : (stripTrailingZerosD D).1 = (D.reverse.dropWhile (fun c => c = '0')).reverse := rfl
  rw [hD']
  have hne2 : (D.reverse.dropWhile (fun c => c = '0')).reverse ≠ [] := by
    intro hnil
    rw [hnil, List.nil_append] at hdec
    cases D with
    | nil => exact hne rfl
    | cons a as =>
      have ha : a ∈ t := hdec ▸ List.mem_cons_self a as
      have h0 := ht a ha
      simp at h0
      exact hhead a rfl h0
  refine ⟨hne2, ?_, ?_⟩
  · intro c hc
    rw [hdec]
    exact List.mem_append_left _ hc
  · cases hcase : (D.reverse.dropWhile (fun c => c = '0')).reverse with
    | nil => exact absurd hcase hne2
    | cons a as =>
      rw [hcase] at hdec
      rw [hdec]
      simp

/-- `parseDecMantissa` accepts a nonempty all-digit list. -/
theorem parseDecMantissa_digits {l : List Char} (hne : l ≠ [])
    (hall : ∀ c ∈ l, isDigitCh c = true) :
    parseDecMantissa l = some (natOfDigits l, 0) := by
  unfold parseDecMantissa
  rw [takeWhile_all hall, dropWhile_all_nil hall]
  simp [hne]

/-- `parseDecMantissa` accepts `digits ++ '.' :: digits?` with a nonempty
integer part. -/
theorem parseDecMantissa_dot {ip frac : List Char} (hne : ip ≠ [])
    (hip : ∀ c ∈ ip, isDigitCh c = true)
    (hfrac : ∀ c ∈ frac, isDigitCh c = true) :
    parseDecMantissa (ip ++ '.' :: frac)
      = some (natOfDigits (ip ++ frac), -(frac.length : ℤ)) := by
  unfold parseDecMantissa
  rw [takeWhile_append_all hip, dropWhile_append_all hip]
  have h1 : List.takeWhile isDigitCh ('.' :: frac) = [] := by
    rw [List.takeWhile_cons]
    simp [show isDigitCh '.' = false from rfl]
  have h2 : List.dropWhile isDigitCh ('.' :: frac) = '.' :: frac := by
    rw [List.dropWhile_cons]
    simp [show isDigitCh '.' = false from rfl]
  rw [h1, h2]
  simp only [List.append_nil]
  have hfrac' : frac.all isDigitCh = true := List.all_eq_true.mpr hfrac
  simp [hfrac', hne]

/-- `splitExp` is trivial on exponent-marker-free input. -/
theorem splitExp_no_e {l : List Char}
    (h : ∀ c ∈ l, (!(c = 'e' || c = 'E')) = true) : splitExp l = (l, none) := by
  unfold splitExp
  rw [List.span_eq_take_drop, takeWhile_all h, dropWhile_all_nil h]

/-- `splitExp` splits at an explicit `'e'` after marker-free front. -/
theorem splitExp_at_e {m ex : List Char}
    (h : ∀ c ∈ m, (!(c = 'e' || c = 'E')) = true) :
    splitExp (m ++ 'e' :: ex) = (m, some ex) := by
  unfold splitExp
  rw [List.span_eq_take_drop, takeWhile_append_all h, dropWhile_append_all h]
  simp [List.takeWhile_cons, List.dropWhile_cons]

/-- `parseExpPart` accepts an explicitly signed nonempty digit string. -/
theorem parseExpPart_signed {sgn : Char} {ds : List Char}
    (hsgn : sgn = '+' ∨ sgn = '-') (hne : ds ≠ [])
    (hall : ∀ c ∈ ds, isDigitCh c = true) :
    (parseExpPart (sgn :: ds)).isSome = true := by
  have hall' : ds.all isDigitCh = true := List.all_eq_true.mpr hall
  rcases hsgn with rfl | rfl <;> simp [parseExpPart, hne, hall']

/-- `parseDec` accepts a nonempty all-digit list. -/
theorem parseDec_digits {l : List Char} (hne : l ≠ [])
    (hall : ∀ c ∈ l, isDigitCh c = true) : (parseDec l).isSome = true := by
  unfold parseDec
  rw [splitExp_no_e (fun c hc => digit_not_expmark (hall c hc))]
  dsimp only
  rw [parseDecMantissa_digits hne hall]
  rfl

/-- `parseDec` accepts `digits ++ '.' :: digits?`. -/
theorem parseDec_dot {ip frac : List Char} (hne : ip ≠ [])
    (hip : ∀ c ∈ ip, isDigitCh c = true)
    (hfrac : ∀ c ∈ frac, isDigitCh c = true) :
    (parseDec (ip ++ '.' :: frac)).isSome = true := by
  unfold parseDec
  have hnoe : ∀ c ∈ ip ++ '.' :: frac, (!(c = 'e' || c = 'E')) = true := by
    intro c hc
    rcases List.mem_append.mp hc with hc | hc
    · exact digit_not_expmark (hip c hc)
    · rcases List.mem_cons.mp hc with rfl | hc
      · decide
      · exact digit_not_expmark (hfrac c hc)
  rw [splitExp_no_e hnoe]
  dsimp only
  rw [parseDecMantissa_dot hne hip hfrac]
  rfl

/-- `parseDec` accepts a mantissa followed by a signed exponent. -/
theorem parseDec_exp {m : List Char} {sgn : Char} {ds : List Char}
    (hm : (parseDecMantissa m).isSome = true)
    (hnoe : ∀ c ∈ m, (!(c = 'e' || c = 'E')) = true)
    (hsgn : sgn = '+' ∨ sgn = '-') (hne : ds ≠ [])
    (hall : ∀ c ∈ ds, isDigitCh c = true) :
    (parseDec (m ++ 'e' :: sgn :: ds)).isSome = true := by
  unfold parseDec
  rw [splitExp_at_e hnoe]
  dsimp only
  obtain ⟨p, hp⟩ := Option.isSome_iff_exists.mp hm
  rw [hp]
  have := parseExpPart_signed hsgn hne hall
  obtain ⟨k, hk⟩ := Option.isSome_iff_exists.mp this
  cases p with
  | mk s e => rw [hk]; rfl

/-- `parseUnsignedBody` succeeds whenever the decimal parse succeeds. -/
theorem parseUnsignedBody_of_dec {neg : Bool} {r : List Char}
    (h : (parseDec r).isSome = true) : (parseUnsignedBody neg r).isSome = true := by
  unfold parseUnsignedBody
  by_cases hinf : r = "Infinity".data
  · simp [hinf]
  · simp [hinf, h]

/-- `parseDecSigned` on input that carries no explicit sign. -/
theorem parseDecSigned_no_sign {l : List Char}
    (h : ∀ c, l.head? = some c → c ≠ '+' ∧ c ≠ '-') :
    parseDecSigned l = parseUnsignedBody false l := by
  cases l with
  | nil => rfl
  | cons a as =>
    obtain ⟨h1, h2⟩ := h a rfl
    unfold parseDecSigned
    split
    · next heq =>
      injection heq with hx _
      exact absurd hx h1
    · next heq =>
      injection heq with hx _
      exact absurd hx h2
    · rfl

/-- `parseJsNum` defers to the signed decimal grammar when the input is not a
radix-prefixed literal. -/
theorem parseJsNum_not_radix {l : List Char}
    (h : ∀ c rest, l = '0' :: c :: rest →
      (c = 'x' || c = 'X') = false ∧ (c = 'o' || c = 'O') = false ∧
      (c = 'b' || c = 'B') = false) :
    parseJsNum l = parseDecSigned l := by
  cases l with
  | nil => rfl
  | cons a as =>
    cases as with
    | nil =>
      unfold parseJsNum
      split
      · next heq => simp at heq
      · rfl
    | cons b bs =>
      by_cases ha : a = '0'
      · subst ha
        obtain ⟨h1, h2, h3⟩ := h b bs rfl
        unfold parseJsNum
        simp [h1, h2, h3]
      · unfold parseJsNum
        split
        · next heq =>
          injection heq with hx _
          exact absurd hx ha
        · rfl

/-- `head?` of an append with nonempty left part. -/
theorem head?_append_left {l r : List Char} (h : l ≠ []) :
    (l ++ r).head? = l.head? := by
  cases l with
  | nil => exact absurd rfl h
  | cons a as => rfl

/-- `head?` of a positive-length `take`. -/
theorem head?_take_pos {l : List Char} {m : ℕ} (h : 1 ≤ m) :
    (l.take m).head? = l.head? := by
  cases l with
  | nil => simp
  | cons a as =>
    cases m with
    | zero => omega
    | succ m' => rfl

/-- The formatted digit layout parses back, has no sign at its head, and is
never a radix-prefixed literal. -/
theorem jsFormatBody_spec {D' : List Char} (n : ℤ) (hne : D' ≠ [])
    (hdig : ∀ c ∈ D', isDigitCh c = true)
    (hhd : ∀ c, D'.head? = some c → c ≠ '0') :
    (parseDec (jsFormatBody D' n)).isSome = true ∧
    (∀ c, (jsFormatBody D' n).head? = some c → c ≠ '+' ∧ c ≠ '-') ∧
    (∀ c rest, jsFormatBody D' n = '0' :: c :: rest →
      (c = 'x' || c = 'X') = false ∧ (c = 'o' || c = 'O') = false ∧
      (c = 'b' || c = 'B') = false) := by
  have hhdig : ∀ c, D'.head? = some c → isDigitCh c = true := by
    intro c hc
    cases D' with
    | nil => simp at hc
    | cons a as =>
      simp at hc
      exact hc ▸ hdig a (by simp)
  unfold jsFormatBody
  by_cases h1 : ((D'.length : ℤ) ≤ n ∧ n ≤ 21)
  · rw [if_pos h1]
    have hbne : D' ++ List.replicate (n - (D'.length : ℤ)).toNat '0' ≠ [] :=
      fun h => hne (List.append_eq_nil.mp h).1
    have hball : ∀ c ∈ D' ++ List.replicate (n - (D'.length : ℤ)).toNat '0',
        isDigitCh c = true := by
      intro c hc
      rcases List.mem_append.mp hc with hc | hc
      · exact hdig c hc
      · rw [List.eq_of_mem_replicate hc]; rfl
    have hhead : (D' ++ List.replicate (n - (D'.length : ℤ)).toNat '0').head? = D'.head? :=
      head?_append_left hne
    refine ⟨parseDec_digits hbne hball, ?_, ?_⟩
    · intro c hc
      rw [hhead] at hc
      exact digit_not_sign (hhdig c hc)
    · intro c rest heq
      have : D'.head? = some '0' := by rw [← hhead, heq]; rfl
      exact absurd rfl (hhd '0' this)
  · rw [if_neg h1]
    by_cases h2 : (0 < n ∧ n ≤ 21)
    · rw [if_pos h2]
      have hm : 1 ≤ n.toNat := by omega
      have htne : D'.take n.toNat ≠ [] := by
        intro h
        rcases List.take_eq_nil_iff.mp h with h | h
        · omega
        · exact hne h
      have htdig : ∀ c ∈ D'.take n.toNat, isDigitCh c = true :=
        fun c hc => hdig c ((D'.take_sublist n.toNat).subset hc)
      have hddig : ∀ c ∈ D'.drop n.toNat, isDigitCh c = true :=
        fun c hc => hdig c ((D'.drop_sublist n.toNat).subset hc)
      have hhead : (D'.take n.toNat ++ '.' :: D'.drop n.toNat).head? = D'.head? := by
        rw [head?_append_left htne, head?_take_pos hm]
      refine ⟨parseDec_dot htne htdig hddig, ?_, ?_⟩
      · intro c hc
        rw [hhead] at hc
        exact digit_not_sign (hhdig c hc)
      · intro c rest heq
        have : D'.head? = some '0' := by rw [← hhead, heq]; rfl
        exact absurd rfl (hhd '0' this)
    · rw [if_neg h2]
      by_cases h3 : (-6 < n ∧ n ≤ 0)
      · rw [if_pos h3]
        have hfall : ∀ c ∈ List.replicate (-n).toNat '0' ++ D', isDigitCh c = true := by
          intro c hc
          rcases List.mem_append.mp hc with hc | hc
          · rw [List.eq_of_mem_replicate hc]; rfl
          · exact hdig c hc
        have hdec : (parseDec ('0' :: '.' :: (List.replicate (-n).toNat '0' ++ D'))).isSome = true := by
          have := @parseDec_dot ['0'] (List.replicate (-n).toNat '0' ++ D')
            (by simp) (by intro c hc; simp at hc; rw [hc]; rfl) hfall
          simpa using this
        refine ⟨hdec, ?_, ?_⟩
        · intro c hc
          simp at hc
          rw [← hc]
          exact ⟨by decide, by decide⟩
        · intro c rest heq
          injection heq with h heq'
          injection heq' with h2' _
          rw [← h2']
          exact ⟨by decide, by decide, by decide⟩
      · rw [if_neg h3]
        set sgn : Char := if n - 1 < 0 then '-' else '+' with hsgndef
        have hsgn : sgn = '+' ∨ sgn = '-' := by
          rw [hsgndef]
          by_cases h : n - 1 < 0
          · right; simp [h]
          · left; simp [h]
        have hsgncons : (if n - 1 < 0 then ['-'] else ['+']) ++ natDigits (n - 1).natAbs
            = sgn :: natDigits (n - 1).natAbs := by
          rw [hsgndef]
          by_cases h : n - 1 < 0 <;> simp [h]
        have hEne : natDigits (n - 1).natAbs ≠ [] := natDigits_ne_nil _
        have hEdig : ∀ c ∈ natDigits (n - 1).natAbs, isDigitCh c = true :=
          fun c hc => natDigits_all_digit hc
        cases D' with
        | nil => exact absurd rfl hne
        | cons d ds =>
          have hd : isDigitCh d = true := hdig d (by simp)
          have hd0 : d ≠ '0' := hhd d rfl
          cases ds with
          | nil =>
            dsimp only
            rw [hsgncons]
            have hmant : (parseDecMantissa [d]).isSome = true := by
              rw [parseDecMantissa_digits (by simp) (by intro c hc; simp at hc; rw [hc]; exact hd)]
              rfl
            have hdecx : (parseDec ([d] ++ 'e' :: sgn :: natDigits (n - 1).natAbs)).isSome = true :=
              parseDec_exp hmant
                (by intro c hc; simp at hc; rw [hc]; exact digit_not_expmark hd)
                hsgn hEne hEdig
            refine ⟨by simpa using hdecx, ?_, ?_⟩
            · intro c hc
              simp at hc
              rw [← hc]
              exact digit_not_sign hd
            · intro c rest heq
              injection heq with h _
              exact absurd h hd0
          | cons d2 ds2 =>
            dsimp only
            rw [hsgncons]
            have hmant : (parseDecMantissa (d :: '.' :: (d2 :: ds2))).isSome = true := by
              have h0 := @parseDecMantissa_dot [d] (d2 :: ds2)
                (by simp) (by intro c hc; simp at hc; rw [hc]; exact hd)
                (fun c hc => hdig c (List.mem_cons_of_mem _ hc))
              have h0' : parseDecMantissa (d :: '.' :: (d2 :: ds2))
                  = some (natOfDigits ([d] ++ d2 :: ds2), -((d2 :: ds2).length : ℤ)) := h0
              rw [h0']
              rfl
            have hnoe : ∀ c ∈ d :: '.' :: (d2 :: ds2), (!(c = 'e' || c = 'E')) = true := by
              intro c hc
              rcases List.mem_cons.mp hc with rfl | hc
              · exact digit_not_expmark hd
              · rcases List.mem_cons.mp hc with rfl | hc
                · decide
                · exact digit_not_expmark (hdig c (List.mem_cons_of_mem _ hc))
            have hdecx : (parseDec ((d :: '.' :: (d2 :: ds2)) ++ 'e' :: sgn :: natDigits (n - 1).natAbs)).isSome = true :=
              parseDec_exp hmant hnoe hsgn hEne hEdig
            refine ⟨by simpa using hdecx, ?_, ?_⟩
            · intro c hc
              simp at hc
              rw [← hc]
              exact digit_not_sign hd
            · intro c rest heq
              injection heq with h _
              exact absurd h hd0

/-- `parseDecSigned` on an explicit leading minus. -/
theorem parseDecSigned_cons_minus (r : List Char) :
    parseDecSigned ('-' :: r) = parseUnsignedBody true r := rfl

/-- The formatted output of `String(number)` parses back under `Number(...)`:
the canonical form is itself numeric. -/
theorem jsNumberToString_parses (v : JsVal) :
    (parseJsNum (jsNumberToString v).data).isSome = true := by
  cases v with
  | inf neg => cases neg <;> decide
  | fin neg s e =>
    show (parseJsNum (jsFormatFin neg s e)).isSome = true
    by_cases hs : s = 0
    · subst hs
      unfold jsFormatFin
      rw [if_pos rfl]
      decide
    · unfold jsFormatFin
      rw [if_neg hs]
      have hD := natDigits_ne_nil s
      have hhd0 : ∀ c, (natDigits s).head? = some c → c ≠ '0' :=
        fun c hc => natDigits_head_ne_zero (by omega) hc
      obtain ⟨hne2, hmem, hhd⟩ := stripTrailingZerosD_spec hD hhd0
      have hdig : ∀ c ∈ (stripTrailingZerosD (natDigits s)).1, isDigitCh c = true :=
        fun c hc => natDigits_all_digit (hmem c hc)
      have hhd' : ∀ c, (stripTrailingZerosD (natDigits s)).1.head? = some c → c ≠ '0' :=
        fun c hc => hhd0 c (hhd ▸ hc)
      obtain ⟨hp, hsign, hradix⟩ := jsFormatBody_spec
        (e + ((stripTrailingZerosD (natDigits s)).2 : ℤ) +
          ((stripTrailingZerosD (natDigits s)).1.length : ℤ)) hne2 hdig hhd'
      by_cases hneg : neg = true
      · dsimp only
        rw [if_pos hneg, List.singleton_append]
        rw [parseJsNum_not_radix (by
          intro c rest heq
          injection heq with h _
          exact absurd h (by decide))]
        rw [parseDecSigned_cons_minus]
        exact parseUnsignedBody_of_dec hp
      · dsimp only
        rw [if_neg hneg, List.nil_append]
        rw [parseJsNum_not_radix hradix, parseDecSigned_no_sign hsign]
        exact parseUnsignedBody_of_dec hp

/-- Every character of the formatted digit layout is a significant digit, a
digit character, or one of the five fixed marker characters. -/
theorem jsFormatBody_chars {D' : List Char} (n : ℤ) :
    ∀ c ∈ jsFormatBody D' n,
      c ∈ D' ∨ isDigitCh c = true ∨ c ∈ ['0', '.', 'e', '+', '-'] := by
  intro c hc
  unfold jsFormatBody at hc
  by_cases h1 : ((D'.length : ℤ) ≤ n ∧ n ≤ 21)
  · rw [if_pos h1] at hc
    rcases List.mem_append.mp hc with hc | hc
    · exact Or.inl hc
    · right; right; rw [List.eq_of_mem_replicate hc]; simp
  · rw [if_neg h1] at hc
    by_cases h2 : (0 < n ∧ n ≤ 21)
    · rw [if_pos h2] at hc
      rcases List.mem_append.mp hc with hc | hc
      · exact Or.inl ((D'.take_sublist n.toNat).subset hc)
      · rcases List.mem_cons.mp hc with rfl | hc
        · right; right; simp
        · exact Or.inl ((D'.drop_sublist n.toNat).subset hc)
    · rw [if_neg h2] at hc
      by_cases h3 : (-6 < n ∧ n ≤ 0)
      · rw [if_pos h3] at hc
        rcases List.mem_cons.mp hc with rfl | hc
        · right; right; simp
        · rcases List.mem_cons.mp hc with rfl | hc
          · right; right; simp
          · rcases List.mem_append.mp hc with hc | hc
            · right; right; rw [List.eq_of_mem_replicate hc]; simp
            · exact Or.inl hc
      · rw [if_neg h3] at hc
        have hes : ∀ x ∈ (if n - 1 < 0 then ['-'] else ['+']) ++ natDigits (n - 1).natAbs,
            x ∈ D' ∨ isDigitCh x = true ∨ x ∈ ['0', '.', 'e', '+', '-'] := by
          intro x hx
          rcases List.mem_append.mp hx with hx | hx
          · by_cases hn : n - 1 < 0
            · rw [if_pos hn] at hx; simp at hx; right; right; rw [hx]; simp
            · rw [if_neg hn] at hx; simp at hx; right; right; rw [hx]; simp
          · exact Or.inr (Or.inl (natDigits_all_digit hx))
        cases D' with
        | nil => right; right; simp at hc; rw [hc]; simp
        | cons d ds =>
          cases ds with
          | nil =>
            dsimp only at hc
            rcases List.mem_cons.mp hc with rfl | hc
            · left; simp
            · rcases List.mem_cons.mp hc with rfl | hc
              · right; right; simp
              · exact hes c hc
          | cons d2 ds2 =>
            dsimp only at hc
            rcases List.mem_cons.mp hc with rfl | hc
            · left; simp
            · rcases List.mem_cons.mp hc with rfl | hc
              · right; right; simp
              · rcases List.mem_append.mp hc with hc | hc
                · left; exact List.mem_cons_of_mem _ hc
                · rcases List.mem_cons.mp hc with rfl | hc
                  · right; right; simp
                  · exact hes c hc

/-- The formatted output of `String(number)` contains no whitespace, so it is
its own trim. -/
theorem jsTrim_jsNumberToString (v : JsVal) :
    jsTrim (jsNumberToString v) = jsNumberToString v := by
  apply jsTrim_of_no_ws
  intro c hc
  cases v with
  | inf neg =>
    cases neg
    · revert hc; show c ∈ ("Infinity" : String).data → _; intro hc
      fin_cases hc <;> rfl
    · revert hc; show c ∈ ("-Infinity" : String).data → _; intro hc
      fin_cases hc <;> rfl
  | fin neg s e =>
    replace hc : c ∈ jsFormatFin neg s e := hc
    unfold jsFormatFin at hc
    by_cases hs : s = 0
    · rw [if_pos hs] at hc
      simp at hc
      rw [hc]; rfl
    · rw [if_neg hs] at hc
      dsimp only at hc
      have hdig : ∀ x ∈ (stripTrailingZerosD (natDigits s)).1, isDigitCh x = true := by
        intro x hx
        have hD := natDigits_ne_nil s
        have hhd0 : ∀ y, (natDigits s).head? = some y → y ≠ '0' :=
          fun y hy => natDigits_head_ne_zero (by omega) hy
        obtain ⟨-, hmem, -⟩ := stripTrailingZerosD_spec hD hhd0
        exact natDigits_all_digit (hmem x hx)
      rcases List.mem_append.mp hc with hc | hc
      · by_cases hneg : neg = true
        · rw [if_pos hneg] at hc
          simp at hc; rw [hc]; rfl
        · rw [if_neg hneg] at hc
          simp at hc
      · rcases jsFormatBody_chars _ c hc with hin | hdg | hfix
        · exact digit_not_ws (hdig c hin)
        · exact digit_not_ws hdg
        · fin_cases hfix <;> rfl

/-- `String(n)` of an integer is never the action name `COERCE_NUMERIC`. -/
theorem jsStringOfInt_ne_coerce (n : ℤ) : jsStringOfInt n ≠ "COERCE_NUMERIC" := by
  intro h
  have hx := jsNumberToString_parses (.fin (decide (n < 0)) n.natAbs 0)
  rw [show jsNumberToString (.fin (decide (n < 0)) n.natAbs 0) = jsStringOfInt n from rfl] at hx
  rw [h] at hx
  exact absurd hx (by decide)

/-! ### Step lemmas for the interpreter actions -/

/-- The rows of `trimRowCount` are the cell-wise trim. -/
theorem trimRowCount_fst (row : List String) :
    (trimRowCount row).1 = row.map jsTrim := by
  induction row with
  | nil => rfl
  | cons c cs ih => simp [trimRowCount, ih]

/-- `TRIM_WHITESPACE` leaves an already-trimmed row unchanged, counting 0. -/
theorem trimRowCount_id {row : List String}
    (h : ∀ cell ∈ row, jsTrim cell = cell) : trimRowCount row = (row, 0) := by
  induction row with
  | nil => rfl
  | cons c cs ih =>
    have hc := h c (by simp)
    have ih' := ih (fun x hx => h x (by simp [hx]))
    simp [trimRowCount, ih', hc]

/-- `TRIM_WHITESPACE` leaves an already-trimmed table unchanged, counting 0. -/
theorem trimTableCount_id {t : List (List String)}
    (h : ∀ row ∈ t, ∀ cell ∈ row, jsTrim cell = cell) :
    trimTableCount t = (t, 0) := by
  induction t with
  | nil => rfl
  | cons r rs ih =>
    have hr := trimRowCount_id (h r (by simp))
    have ih' := ih (fun row hrow => h row (by simp [hrow]))
    simp [trimTableCount, hr, ih']

/-- Every cell of a trimmed table is its own trim. -/
theorem trimTableCount_trimmed (t : List (List String)) :
    ∀ row ∈ (trimTableCount t).1, ∀ cell ∈ row, jsTrim cell = cell := by
  induction t with
  | nil => intro row h; simp [trimTableCount] at h
  | cons r rs ih =>
    intro row hrow cell hcell
    simp only [trimTableCount] at hrow
    rcases List.mem_cons.mp hrow with rfl | hrow
    · rw [trimRowCount_fst] at hcell
      obtain ⟨c0, -, rfl⟩ := List.mem_map.mp hcell
      exact jsTrim_idem c0
    · exact ih row hrow cell hcell

/-- `STRIP_WRAPPING_QUOTES` leaves an unwrapped cell unchanged. -/
theorem stripCellCount_id {cell : String} (h : isWrappedCell cell = false) :
    stripCellCount cell = (cell, 0) := by
  simp [stripCellCount, h]

/-- `STRIP_WRAPPING_QUOTES` leaves a table of unwrapped cells unchanged,
counting 0. -/
theorem stripTableCount_id {t : List (List String)}
    (h : ∀ row ∈ t, ∀ cell ∈ row, isWrappedCell cell = false) :
    stripTableCount t = (t, 0) := by
  induction t with
  | nil => rfl
  | cons r rs ih =>
    have hr : stripRowCount r = (r, 0) := by
      have hr' := h r (by simp)
      clear h ih
      induction r with
      | nil => rfl
      | cons c cs ihc =>
        have hc := stripCellCount_id (hr' c (by simp))
        have ihc' := ihc (fun x hx => hr' x (by simp [hx]))
        simp [stripRowCount, hc, ihc']
    have ih' := ih (fun row hrow => h row (by simp [hrow]))
    simp [stripTableCount, hr, ih']

/-- Rows kept by `REMOVE_EMPTY_ROWS` come from the input. -/
theorem removeAux_subset (l : List (List String)) :
    ∀ row ∈ (removeAux l).1, row ∈ l := by
  induction l with
  | nil => intro row h; simp [removeAux] at h
  | cons r rs ih =>
    intro row hrow
    simp only [removeAux] at hrow
    by_cases he : rowConsideredEmpty r
    · rw [if_pos he] at hrow
      exact List.mem_cons_of_mem _ (ih row hrow)
    · rw [if_neg he] at hrow
      rcases List.mem_cons.mp hrow with rfl | hrow
      · simp
      · exact List.mem_cons_of_mem _ (ih row hrow)

/-- Rows kept by `removeStep` come from the input. -/
theorem removeStep_subset (hasHeader : Bool) (t : List (List String)) :
    ∀ row ∈ (removeStep hasHeader t).1, row ∈ t := by
  intro row hrow
  match hasHeader, t with
  | true, r :: rest =>
    simp only [removeStep] at hrow
    rcases List.mem_cons.mp hrow with rfl | hrow
    · simp
    · exact List.mem_cons_of_mem _ (removeAux_subset rest row hrow)
  | true, [] => exact removeAux_subset [] row hrow
  | false, t => exact removeAux_subset t row hrow

/-- `REMOVE_EMPTY_ROWS` keeps every row that fails the emptiness rule. -/
theorem removeAux_id {l : List (List String)}
    (h : ∀ row ∈ l, rowConsideredEmpty row = false) : removeAux l = (l, 0) := by
  induction l with
  | nil => rfl
  | cons r rs ih =>
    have hr := h r (by simp)
    have ih' := ih (fun row hrow => h row (by simp [hrow]))
    simp [removeAux, hr, ih']

/-- `removeStep` keeps the whole table when no non-exempt row is considered
empty. -/
theorem removeStep_id {hasHeader : Bool} {t : List (List String)}
    (h : ∀ row ∈ (if hasHeader then t.drop 1 else t), rowConsideredEmpty row = false) :
    removeStep hasHeader t = (t, 0) := by
  match hasHeader, t with
  | true, r :: rest =>
    have h' : ∀ row ∈ rest, rowConsideredEmpty row = false := by
      intro row hrow
      exact h row (by simpa using hrow)
    simp [removeStep, removeAux_id h']
  | true, [] => rfl
  | false, t =>
    have h' : ∀ row ∈ t, rowConsideredEmpty row = false := by simpa using h
    show removeAux t = (t, 0)
    exact removeAux_id h'

/-- `ENSURE_EQUAL_COLUMNS` keeps the whole table (counting nothing) when every
row already has the expected column count. -/
theorem ensureAux_id {m : CleaningMode} {e : ℕ} {l : List (List String)}
    (h : ∀ row ∈ l, row.length = e) : ensureAux m e l = (l, 0, 0) := by
  induction l with
  | nil => rfl
  | cons r rs ih =>
    have hr := h r (by simp)
    have ih' := ih (fun row hrow => h row (by simp [hrow]))
    simp [ensureAux, hr, ih']

/-- In `pad-with-empty` mode, `ensureAux` rewrites each row to the padded or
truncated form and drops nothing. -/
theorem ensureAux_pad_map (e : ℕ) (l : List (List String)) :
    (ensureAux .padWithEmpty e l).1
      = l.map (fun r =>
          if r.length = e then r
          else if r.length < e then r ++ List.replicate (e - r.length) ""
          else r.take e) ∧
    (ensureAux .padWithEmpty e l).2.2 = 0 := by
  induction l with
  | nil => exact ⟨rfl, rfl⟩
  | cons r rs ih =>
    obtain ⟨ih1, ih2⟩ := ih
    by_cases h1 : r.length = e
    · constructor <;> simp [ensureAux, h1, ih1, ih2]
    · by_cases h2 : r.length < e
      · constructor <;>
          simp [ensureAux, h1, h2, ih1, ih2]
      · constructor <;>
          simp [ensureAux, h1, h2, ih1, ih2, show ¬(CleaningMode.padWithEmpty = CleaningMode.dropRow) by decide]
    
/-- After `ensureAux` in `pad-with-empty` mode every row has the expected
column count. -/
theorem ensureAux_pad_uniform (e : ℕ) (l : List (List String)) :
    ∀ row ∈ (ensureAux .padWithEmpty e l).1, row.length = e := by
  intro row hrow
  rw [(ensureAux_pad_map e l).1] at hrow
  obtain ⟨r, -, rfl⟩ := List.mem_map.mp hrow
  by_cases h1 : r.length = e
  · simp [h1]
  · by_cases h2 : r.length < e
    · simp [h1, h2]
      omega
    · simp [h1, h2]
      omega

/-- `ensureAux` preserves any cell property that holds of the empty string:
cells of the output come from the input rows or are padding. -/
theorem ensureAux_pad_cells (e : ℕ) (l : List (List String)) :
    ∀ row ∈ (ensureAux .padWithEmpty e l).1, ∀ cell ∈ row,
      (∃ r ∈ l, cell ∈ r) ∨ cell = "" := by
  intro row hrow cell hcell
  rw [(ensureAux_pad_map e l).1] at hrow
  obtain ⟨r, hr, rfl⟩ := List.mem_map.mp hrow
  by_cases h1 : r.length = e
  · rw [if_pos h1] at hcell
    exact Or.inl ⟨r, hr, hcell⟩
  · by_cases h2 : r.length < e
    · rw [if_neg h1, if_pos h2] at hcell
      rcases List.mem_append.mp hcell with hc | hc
      · exact Or.inl ⟨r, hr, hc⟩
      · exact Or.inr (List.eq_of_mem_replicate hc)
    · rw [if_neg h1, if_neg h2] at hcell
      exact Or.inl ⟨r, hr, (r.take_sublist e).subset hcell⟩

/-- Unfolding `applyActions` over a cons. -/
theorem applyActions_cons (rows : List (List String)) (a : CleaningAction)
    (rest : List CleaningAction) (h : Bool) :
    applyActions rows (a :: rest) h
      = ⟨(applyActions (applyAction h rows a).1 rest h).rows,
         (applyAction h rows a).2.1
           + (applyActions (applyAction h rows a).1 rest h).rowsChanged,
         (applyAction h rows a).2.2
           + (applyActions (applyAction h rows a).1 rest h).rowsDropped⟩ := rfl

/-- The table produced by a plan concatenation is the table of the second
plan run on the first plan's output. -/
theorem applyActions_append_rows (acts1 acts2 : List CleaningAction)
    (rows : List (List String)) (h : Bool) :
    (applyActions rows (acts1 ++ acts2) h).rows
      = (applyActions (applyActions rows acts1 h).rows acts2 h).rows := by
  induction acts1 generalizing rows with
  | nil => rfl
  | cons a rest ih =>
    rw [List.cons_append, applyActions_cons, applyActions_cons]
    exact ih (applyAction h rows a).1

/-- C1 (amended): running the fixed pre-clean plan a second time on the first
run's output changes nothing and reports `rowsChanged = rowsDropped = 0`,
provided the first output (which is always fully trimmed and
column-uniform) contains no cell that still carries wrapping quotes and no
non-exempt row that the emptiness rule would now drop (padding can create
such rows).  The two provisos are exactly what the counterexample
violates. -/
theorem preclean_second_pass_identity (rows : List (List String)) (h : Bool)
    (H2 : ∀ row ∈ (applyActions rows preCleanPlan h).rows, ∀ cell ∈ row,
      isWrappedCell cell = false)
    (H3 : ∀ row ∈ (if h then (applyActions rows preCleanPlan h).rows.drop 1
        else (applyActions rows preCleanPlan h).rows),
      rowConsideredEmpty row = false) :
    applyActions (applyActions rows preCleanPlan h).rows preCleanPlan h
      = ⟨(applyActions rows preCleanPlan h).rows, 0, 0⟩ := by
  have hR1 : (applyActions rows preCleanPlan h).rows
      = (ensureAux .padWithEmpty
          (headLen (removeStep h (trimTableCount (stripTableCount rows).1).1).1)
          (removeStep h (trimTableCount (stripTableCount rows).1).1).1).1 := rfl
  have F1 : ∀ row ∈ (applyActions rows preCleanPlan h).rows, ∀ cell ∈ row,
      jsTrim cell = cell := by
    intro row hrow cell hcell
    rw [hR1] at hrow
    rcases ensureAux_pad_cells _ _ row hrow cell hcell with ⟨r, hr, hc⟩ | rfl
    · have hr2 := removeStep_subset h _ r hr
      exact trimTableCount_trimmed _ r hr2 cell hc
    · rfl
  have F2 : ∀ row ∈ (applyActions rows preCleanPlan h).rows,
      row.length = headLen (applyActions rows preCleanPlan h).rows := by
    intro row hrow
    have hE := ensureAux_pad_uniform _ _ row (hR1 ▸ hrow)
    cases hc : (applyActions rows preCleanPlan h).rows with
    | nil => rw [hc] at hrow; simp at hrow
    | cons r rs =>
      have hrmem : r ∈ (applyActions rows preCleanPlan h).rows := by rw [hc]; simp
      have hrE := ensureAux_pad_uniform _ _ r (hR1 ▸ hrmem)
      rw [headLen, hE, hrE]
  have e1 : stripTableCount (applyActions rows preCleanPlan h).rows
      = ((applyActions rows preCleanPlan h).rows, 0) := stripTableCount_id H2
  have e2 : trimTableCount (applyActions rows preCleanPlan h).rows
      = ((applyActions rows preCleanPlan h).rows, 0) := trimTableCount_id F1
  have e3 : removeStep h (applyActions rows preCleanPlan h).rows
      = ((applyActions rows preCleanPlan h).rows, 0) := removeStep_id H3
  have e4 : ensureStep .padWithEmpty (applyActions rows preCleanPlan h).rows
      = ((applyActions rows preCleanPlan h).rows, 0, 0) := by
    unfold ensureStep
    exact ensureAux_id F2
  have a1 : applyAction h (applyActions rows preCleanPlan h).rows .stripWrappingQuotes
      = ((applyActions rows preCleanPlan h).rows, 0, 0) := by
    unfold applyAction; rw [e1]
  have a2 : applyAction h (applyActions rows preCleanPlan h).rows .trimWhitespace
      = ((applyActions rows preCleanPlan h).rows, 0, 0) := by
    unfold applyAction; rw [e2]
  have a3 : applyAction h (applyActions rows preCleanPlan h).rows .removeEmptyRows
      = ((applyActions rows preCleanPlan h).rows, 0, 0) := by
    unfold applyAction; rw [e3]
  have a4 : applyAction h (applyActions rows preCleanPlan h).rows
        (.ensureEqualColumns .padWithEmpty)
      = ((applyActions rows preCleanPlan h).rows, 0, 0) := e4
  show applyActions (applyActions rows preCleanPlan h).rows
    [.stripWrappingQuotes, .trimWhitespace, .removeEmptyRows,
     .ensureEqualColumns .padWithEmpty] h = _
  rw [applyActions_cons, a1]
  rw [applyActions_cons, a2]
  rw [applyActions_cons, a3]
  rw [applyActions_cons, a4]
  rfl

/-- Witness for `preclean_second_pass_identity` at a concrete clean table. -/
theorem preclean_second_pass_identity_witness :
    applyActions (applyActions [["a"], ["b"]] preCleanPlan true).rows
        preCleanPlan true
      = ⟨(applyActions [["a"], ["b"]] preCleanPlan true).rows, 0, 0⟩ :=
  preclean_second_pass_identity [["a"], ["b"]] true (by decide) (by decide)

/-- C3 (amended): the column count used by each `ENSURE_EQUAL_COLUMNS`
decision is recomputed when that action runs, from the table's current first
row — the table produced by all earlier actions of the same pass — not from a
once-per-pass snapshot of the header: after any prefix of actions followed by
a pad-mode equalization, every row has the column count of the prefix
output's first row. -/
theorem ensure_expected_per_action (rows : List (List String))
    (acts : List CleaningAction) (h : Bool) :
    ∀ row ∈ (applyActions rows
        (acts ++ [.ensureEqualColumns .padWithEmpty]) h).rows,
      row.length = headLen (applyActions rows acts h).rows := by
  intro row hrow
  rw [applyActions_append_rows] at hrow
  have hx : (applyActions (applyActions rows acts h).rows
        [.ensureEqualColumns .padWithEmpty] h).rows
      = (ensureAux .padWithEmpty (headLen (applyActions rows acts h).rows)
          (applyActions rows acts h).rows).1 := rfl
  rw [hx] at hrow
  exact ensureAux_pad_uniform _ _ row hrow

/-- Witness for `ensure_expected_per_action` at a concrete table. -/
theorem ensure_expected_per_action_witness :
    (["a", "b"] : List String).length
      = headLen (applyActions [["a", "b"]] ([] : List CleaningAction) false).rows :=
  ensure_expected_per_action [["a", "b"]] [] false ["a", "b"] (by decide)

/-- The cell-level effect of one action on the header row: trimming, quote
stripping, or nothing. -/
def headerTransform : CleaningAction → List String → List String
  | .trimWhitespace => fun row => (trimRowCount row).1
  | .stripWrappingQuotes => fun row => (stripRowCount row).1
  | _ => fun row => row

/-- With `hasHeader = true`, a single action never removes row 0: the output
starts with the (at most cell-rewritten) input header. -/
theorem applyAction_header (a : CleaningAction) (r : List String)
    (rs : List (List String)) :
    ∃ rs', (applyAction true (r :: rs) a).1 = headerTransform a r :: rs' := by
  cases a with
  | trimWhitespace => exact ⟨(trimTableCount rs).1, rfl⟩
  | stripWrappingQuotes => exact ⟨(stripTableCount rs).1, rfl⟩
  | ensureEqualColumns m =>
    refine ⟨(ensureAux m r.length rs).1, ?_⟩
    show (ensureAux m (headLen (r :: rs)) (r :: rs)).1 = r :: _
    simp [headLen, ensureAux]
  | removeEmptyRows => exact ⟨(removeAux rs).1, rfl⟩
  | coerceNumeric c e => exact ⟨(coerceAux c e rs).1, rfl⟩

/-- C5: when `hasHeader` is true no interpreter action removes row 0; running
any action sequence on a table with a header leaves a first row, and that
first row is the input header transformed only by the cell-level edits
(trim/strip) of the plan — the row-removal actions leave it untouched. -/
theorem header_row_never_removed (acts : List CleaningAction)
    (r : List String) (rs : List (List String)) :
    ∃ rs', (applyActions (r :: rs) acts true).rows
      = acts.foldl (fun row a => headerTransform a row) r :: rs' := by
  induction acts generalizing r rs with
  | nil => exact ⟨rs, rfl⟩
  | cons a rest ih =>
    obtain ⟨rs1, h1⟩ := applyAction_header a r rs
    rw [applyActions_cons]
    dsimp only
    rw [h1]
    rw [List.foldl_cons]
    exact ih (headerTransform a r) rs1

/-- C7: after one `ENSURE_EQUAL_COLUMNS(pad-with-empty)` action, the table is
the row-wise pad/truncate normal form, and every row's column count equals
the first row's column count at the moment the action ran. -/
theorem ensure_pad_uniform_columns (rows : List (List String)) (h : Bool) :
    (applyActions rows [.ensureEqualColumns .padWithEmpty] h).rows
      = rows.map (fun r =>
          if r.length = headLen rows then r
          else if r.length < headLen rows then
            r ++ List.replicate (headLen rows - r.length) ""
          else r.take (headLen rows)) ∧
    ((applyActions rows [.ensureEqualColumns .padWithEmpty] h).rows.all
      (fun r => r.length == headLen rows)) = true := by
  have hrows : (applyActions rows [.ensureEqualColumns .padWithEmpty] h).rows
      = (ensureAux .padWithEmpty (headLen rows) rows).1 := rfl
  constructor
  · rw [hrows]
    exact (ensureAux_pad_map _ _).1
  · rw [hrows, List.all_eq_true]
    intro r hr
    exact beq_iff_eq.mpr (ensureAux_pad_uniform _ _ r hr)

/-! ### `COERCE_NUMERIC` lemmas -/

/-- `coerceAux` over a cons when the row is kept. -/
theorem coerceAux_cons_some {c : ℤ} {e : CoerceOnError} {row row' : List String}
    {ch dr : ℕ} (rest : List (List String))
    (h : coerceRow c e row = (some row', ch, dr)) :
    coerceAux c e (row :: rest)
      = (row' :: (coerceAux c e rest).1,
         ch + (coerceAux c e rest).2.1, dr + (coerceAux c e rest).2.2) := by
  conv_lhs => rw [coerceAux]
  rw [h]

/-- `coerceAux` over a cons when the row is dropped. -/
theorem coerceAux_cons_none {c : ℤ} {e : CoerceOnError} {row : List String}
    {ch dr : ℕ} (rest : List (List String))
    (h : coerceRow c e row = (none, ch, dr)) :
    coerceAux c e (row :: rest)
      = ((coerceAux c e rest).1,
         ch + (coerceAux c e rest).2.1, dr + (coerceAux c e rest).2.2) := by
  conv_lhs => rw [coerceAux]
  rw [h]

/-- A row whose target column is out of bounds (or negative) is kept
unchanged by `coerceRow`. -/
theorem coerceRow_oob {c : ℤ} {e : CoerceOnError} {row : List String}
    (h : c < 0 ∨ (row.length : ℤ) ≤ c) :
    coerceRow c e row = (some row, 0, 0) := by
  unfold coerceRow
  rw [if_pos h]

/-- A row whose target cell trims to nothing is kept unchanged by
`coerceRow`. -/
theorem coerceRow_blank {c : ℤ} {e : CoerceOnError} {row : List String}
    (hg : ¬(c < 0 ∨ (row.length : ℤ) ≤ c))
    (hz : (jsTrim (row.getD c.toNat "")).length = 0) :
    coerceRow c e row = (some row, 0, 0) := by
  unfold coerceRow
  rw [if_neg hg]
  simp only [hz]
  simp

/-- `coerceRow` when the parse fails under `set-zero`. -/
theorem coerceRow_setZero_nan {c : ℤ} {row : List String}
    (hg : ¬(c < 0 ∨ (row.length : ℤ) ≤ c))
    (hz : ¬(jsTrim (row.getD c.toNat "")).length = 0)
    (hp : parseJsNum (jsTrim (row.getD c.toNat "")).data = none) :
    coerceRow c .setZero row = (some (row.set c.toNat "0"), 1, 0) := by
  unfold coerceRow
  rw [if_neg hg]
  simp only [if_neg hz, hp]

/-- `coerceRow` when the parse succeeds and the canonical form equals the
cell. -/
theorem coerceRow_keep {c : ℤ} {e : CoerceOnError} {row : List String} {v : JsVal}
    (hg : ¬(c < 0 ∨ (row.length : ℤ) ≤ c))
    (hz : ¬(jsTrim (row.getD c.toNat "")).length = 0)
    (hp : parseJsNum (jsTrim (row.getD c.toNat "")).data = some v)
    (hsv : jsNumberToString v = row.getD c.toNat "") :
    coerceRow c e row = (some row, 0, 0) := by
  unfold coerceRow
  rw [if_neg hg]
  simp only [if_neg hz, hp, hsv]
  simp

/-- `coerceRow` when the parse succeeds and the cell is rewritten to the
canonical form. -/
theorem coerceRow_rewrite {c : ℤ} {e : CoerceOnError} {row : List String} {v : JsVal}
    (hg : ¬(c < 0 ∨ (row.length : ℤ) ≤ c))
    (hz : ¬(jsTrim (row.getD c.toNat "")).length = 0)
    (hp : parseJsNum (jsTrim (row.getD c.toNat "")).data = some v)
    (hsv : ¬jsNumberToString v = row.getD c.toNat "") :
    coerceRow c e row = (some (row.set c.toNat (jsNumberToString v)), 1, 0) := by
  unfold coerceRow
  rw [if_neg hg]
  simp only [if_neg hz, hp, if_neg hsv]

/-- `set-zero` soundness over the data rows: no surviving in-bounds cell of
the target column is non-empty and non-numeric. -/
theorem coerceAux_setZero_sound (c : ℤ) :
    ∀ (l : List (List String)), ∀ row ∈ (coerceAux c .setZero l).1,
      0 ≤ c → c.toNat < row.length →
      ¬(jsTrim (row.getD c.toNat "") ≠ "" ∧
        parseJsNum (jsTrim (row.getD c.toNat "")).data = none) := by
  intro l
  induction l with
  | nil => intro row hmem; simp [coerceAux] at hmem
  | cons row rest ih =>
    intro row' hrow' h0 hlt
    by_cases hg : c < 0 ∨ ((row.length : ℤ) ≤ c)
    · rw [coerceAux_cons_some rest (coerceRow_oob hg)] at hrow'
      rcases List.mem_cons.mp hrow' with rfl | hmem
      · exfalso
        have hc' : (c.toNat : ℤ) = c := Int.toNat_of_nonneg h0
        rcases hg with hg1 | hg1
        · omega
        · have hx : (c.toNat : ℤ) < (row'.length : ℤ) := by exact_mod_cast hlt
          omega
      · exact ih row' hmem h0 hlt
    · by_cases hz : (jsTrim (row.getD c.toNat "")).length = 0
      · rw [coerceAux_cons_some rest (coerceRow_blank hg hz)] at hrow'
        rcases List.mem_cons.mp hrow' with rfl | hmem
        · intro hx
          apply hx.1
          have hd : (jsTrim (row'.getD c.toNat "")).data = [] :=
            List.length_eq_zero.mp hz
          show String.mk (jsTrimList (row'.getD c.toNat "").data) = ""
          rw [show jsTrimList ((row'.getD c.toNat "").data) = [] from hd]
        · exact ih row' hmem h0 hlt
      · cases hparse : parseJsNum (jsTrim (row.getD c.toNat "")).data with
        | none =>
          rw [coerceAux_cons_some rest (coerceRow_setZero_nan hg hz hparse)] at hrow'
          rcases List.mem_cons.mp hrow' with rfl | hmem
          · intro hx
            have hidx : c.toNat < row.length := by
              have := hlt
              rw [List.length_set] at this
              exact this
            have hnone := hx.2
            rw [getD_set_self "" row c.toNat hidx "0"] at hnone
            exact absurd hnone (by decide)
          · exact ih row' hmem h0 hlt
        | some v =>
          by_cases hsv : jsNumberToString v = row.getD c.toNat ""
          · rw [coerceAux_cons_some rest (coerceRow_keep hg hz hparse hsv)] at hrow'
            rcases List.mem_cons.mp hrow' with rfl | hmem
            · intro hx
              have hnone := hx.2
              rw [hparse] at hnone
              simp at hnone
            · exact ih row' hmem h0 hlt
          · rw [coerceAux_cons_some rest (coerceRow_rewrite hg hz hparse hsv)] at hrow'
            rcases List.mem_cons.mp hrow' with rfl | hmem
            · intro hx
              have hidx : c.toNat < row.length := by
                have := hlt
                rw [List.length_set] at this
                exact this
              have hnone := hx.2
              rw [getD_set_self "" row c.toNat hidx (jsNumberToString v)] at hnone
              rw [jsTrim_jsNumberToString] at hnone
              have hps := jsNumberToString_parses v
              rw [hnone] at hps
              simp at hps
            · exact ih row' hmem h0 hlt

/-- C8: after `COERCE_NUMERIC` with `onError = set-zero` on column `c`, no
retained row at or after the data-start index whose column `c` is within
bounds holds a non-empty, non-numeric value in column `c`. -/
theorem coerce_set_zero_no_nonnumeric (rows : List (List String)) (c : ℤ) (h : Bool) :
    ∀ row ∈ ((applyActions rows [.coerceNumeric c .setZero] h).rows).drop (dataStart h),
      0 ≤ c → c.toNat < row.length →
      ¬(jsTrim (row.getD c.toNat "") ≠ "" ∧
        parseJsNum (jsTrim (row.getD c.toNat "")).data = none) := by
  intro row hrow
  have hrows : (applyActions rows [.coerceNumeric c .setZero] h).rows
      = rows.take (dataStart h)
          ++ (coerceAux c .setZero (rows.drop (dataStart h))).1 := rfl
  rw [hrows] at hrow
  cases h with
  | false =>
    simp only [dataStart, if_neg (by decide : ¬(false = true)), List.take_zero,
      List.drop_zero, List.nil_append] at hrow
    exact coerceAux_setZero_sound c rows row hrow
  | true =>
    cases rows with
    | nil => simp [dataStart, coerceAux] at hrow
    | cons r rs =>
      simp only [dataStart, if_pos rfl, List.take_cons, List.take_zero,
        List.drop_succ_cons, List.drop_zero] at hrow
      have hrow' : row ∈ (coerceAux c .setZero rs).1 := by
        simpa using hrow
      exact coerceAux_setZero_sound c rs row hrow'

/-- Witness for `coerce_set_zero_no_nonnumeric` at a concrete table. -/
theorem coerce_set_zero_no_nonnumeric_witness :
    ¬(jsTrim ((["0"] : List String).getD (0 : ℤ).toNat "") ≠ "" ∧
      parseJsNum (jsTrim ((["0"] : List String).getD (0 : ℤ).toNat "")).data = none) :=
  coerce_set_zero_no_nonnumeric [["x"]] 0 false ["0"] (by decide) (by decide) (by decide)

/-- A kept row of `coerceRow` has the input row's length and agrees with it
outside the target column. -/
theorem coerceRow_frame {c : ℤ} {e : CoerceOnError} {row row' : List String}
    {ch dr : ℕ} (h : coerceRow c e row = (some row', ch, dr)) :
    row'.length = row.length ∧
    ∀ j : ℕ, (j : ℤ) ≠ c → row'.getD j "" = row.getD j "" := by
  have hset : ∀ (y : String), row' = row.set c.toNat y → ¬(c < 0 ∨ ((row.length : ℤ) ≤ c)) →
      row'.length = row.length ∧
      ∀ j : ℕ, (j : ℤ) ≠ c → row'.getD j "" = row.getD j "" := by
    intro y hy hg
    subst hy
    refine ⟨List.length_set row c.toNat y, ?_⟩
    intro j hj
    have h0 : 0 ≤ c := by omega
    have hji : c.toNat ≠ j := by
      intro hji
      apply hj
      rw [← hji, Int.toNat_of_nonneg h0]
    exact getD_set_ne "" row c.toNat j hji y
  by_cases hg : c < 0 ∨ ((row.length : ℤ) ≤ c)
  · have := (@coerceRow_oob c e row hg).symm.trans h
    simp only [Prod.mk.injEq, Option.some.injEq] at this
    rw [← this.1]
    exact ⟨rfl, fun j _ => rfl⟩
  · by_cases hz : (jsTrim (row.getD c.toNat "")).length = 0
    · have := (@coerceRow_blank c e row hg hz).symm.trans h
      simp only [Prod.mk.injEq, Option.some.injEq] at this
      rw [← this.1]
      exact ⟨rfl, fun j _ => rfl⟩
    · cases hparse : parseJsNum (jsTrim (row.getD c.toNat "")).data with
      | none =>
        cases e with
        | dropRow =>
          exfalso
          have hx : coerceRow c .dropRow row = (none, 0, 1) := by
            unfold coerceRow
            rw [if_neg hg]
            simp only [if_neg hz, hparse]
          have := hx.symm.trans h
          simp at this
        | setNull =>
          have hx : coerceRow c .setNull row = (some (row.set c.toNat ""), 1, 0) := by
            unfold coerceRow
            rw [if_neg hg]
            simp only [if_neg hz, hparse]
          have := hx.symm.trans h
          simp only [Prod.mk.injEq, Option.some.injEq] at this
          exact hset "" this.1.symm hg
        | setZero =>
          have hx := coerceRow_setZero_nan hg hz hparse
          have := hx.symm.trans h
          simp only [Prod.mk.injEq, Option.some.injEq] at this
          exact hset "0" this.1.symm hg
      | some v =>
        by_cases hsv : jsNumberToString v = row.getD c.toNat ""
        · have := (@coerceRow_keep c e row v hg hz hparse hsv).symm.trans h
          simp only [Prod.mk.injEq, Option.some.injEq] at this
          rw [← this.1]
          exact ⟨rfl, fun j _ => rfl⟩
        · have := (@coerceRow_rewrite c e row v hg hz hparse hsv).symm.trans h
          simp only [Prod.mk.injEq, Option.some.injEq] at this
          exact hset (jsNumberToString v) this.1.symm hg

/-- Every output row of `coerceAux` descends from an input row it agrees with
outside the target column. -/
theorem coerceAux_frame (c : ℤ) (e : CoerceOnError) :
    ∀ (l : List (List String)), ∀ row ∈ (coerceAux c e l).1,
      ∃ row₀ ∈ l, row.length = row₀.length ∧
        ∀ j : ℕ, (j : ℤ) ≠ c → row.getD j "" = row₀.getD j "" := by
  intro l
  induction l with
  | nil => intro row hmem; simp [coerceAux] at hmem
  | cons row rest ih =>
    intro row' hrow'
    rcases hres : coerceRow c e row with ⟨ro, ch, dr⟩
    cases ro with
    | some r' =>
      rw [coerceAux_cons_some rest hres] at hrow'
      rcases List.mem_cons.mp hrow' with rfl | hmem
      · obtain ⟨hl, hf⟩ := coerceRow_frame hres
        exact ⟨row, by simp, hl, hf⟩
      · obtain ⟨row₀, hmem₀, hrest⟩ := ih row' hmem
        exact ⟨row₀, List.mem_cons_of_mem _ hmem₀, hrest⟩
    | none =>
      rw [coerceAux_cons_none rest hres] at hrow'
      obtain ⟨row₀, hmem₀, hrest⟩ := ih row' hrow'
      exact ⟨row₀, List.mem_cons_of_mem _ hmem₀, hrest⟩

/-- A row whose target cell is out of bounds or blank is skipped by
`coerceRow` without being rewritten, counted, or dropped. -/
theorem coerceRow_skip {c : ℤ} {e : CoerceOnError} {row : List String}
    (h : c < 0 ∨ ((row.length : ℤ) ≤ c) ∨ jsTrim (row.getD c.toNat "") = "") :
    coerceRow c e row = (some row, 0, 0) := by
  by_cases hg : c < 0 ∨ ((row.length : ℤ) ≤ c)
  · exact coerceRow_oob hg
  · have hz : (jsTrim (row.getD c.toNat "")).length = 0 := by
      rcases h with h | h | h
      · exact absurd (Or.inl h) hg
      · exact absurd (Or.inr h) hg
      · rw [h]; rfl
    exact coerceRow_blank hg hz

/-- A table all of whose rows are skipped passes through `coerceAux`
untouched with zero counters. -/
theorem coerceAux_skip (c : ℤ) (e : CoerceOnError) :
    ∀ (l : List (List String)),
      (∀ row ∈ l, c < 0 ∨ ((row.length : ℤ) ≤ c) ∨ jsTrim (row.getD c.toNat "") = "") →
      coerceAux c e l = (l, 0, 0) := by
  intro l
  induction l with
  | nil => intro _; rfl
  | cons row rest ih =>
    intro hall
    have h1 := @coerceRow_skip c e row (hall row (by simp))
    have h2 := ih (fun r hr => hall r (by simp [hr]))
    rw [coerceAux_cons_some rest h1, h2]
    rfl

/-- `coerceAux` is the row-wise map of `coerceRow`: the output is the kept
rows in input order, and both counters are the sums of the per-row deltas,
so each row's treatment is independent of the rest of the table. -/
theorem coerceAux_decomp (c : ℤ) (e : CoerceOnError) :
    ∀ (l : List (List String)),
      coerceAux c e l
        = (l.filterMap (fun row => (coerceRow c e row).1),
           (l.map (fun row => (coerceRow c e row).2.1)).sum,
           (l.map (fun row => (coerceRow c e row).2.2)).sum) := by
  intro l
  induction l with
  | nil => rfl
  | cons row rest ih =>
    rcases hres : coerceRow c e row with ⟨ro, ch, dr⟩
    cases ro with
    | some r' =>
      rw [coerceAux_cons_some rest hres, ih]
      simp [List.filterMap_cons, hres]
    | none =>
      rw [coerceAux_cons_none rest hres, ih]
      simp [List.filterMap_cons, hres]

/-- C10 (frame property of `COERCE_NUMERIC`), for every table, column index
and onError mode: (1) rows before the data-start index are unchanged
entirely; (2) the action is exactly the row-wise map of `coerceRow` over
the data rows — the output data rows are the kept rows in order, and both
counters are the sums of the per-row deltas, so in any mixed table each
data row's treatment is independent of the rest; (3) a row whose target
cell is out of bounds or empty/whitespace-only after trimming is skipped
by `coerceRow` verbatim with zero deltas — with (2), in every table such a
row is retained unchanged (column `c` included), contributes nothing to
either counter, and never causes a row drop; (4) any kept row of
`coerceRow` has its input row's length and agrees with it on every cell
outside column `c`; (5) hence every retained data row descends from an
input data row agreeing outside column `c`; (6) when every data row's
target cell is out of bounds or blank, the whole action is a no-op: same
table, nothing counted, nothing dropped. -/
theorem coerce_frame (rows : List (List String)) (c : ℤ) (e : CoerceOnError) (h : Bool) :
    ((applyActions rows [.coerceNumeric c e] h).rows).take (dataStart h)
        = rows.take (dataStart h) ∧
    ((applyActions rows [.coerceNumeric c e] h).rows
        = rows.take (dataStart h)
          ++ (rows.drop (dataStart h)).filterMap (fun row => (coerceRow c e row).1) ∧
      (applyActions rows [.coerceNumeric c e] h).rowsChanged
        = ((rows.drop (dataStart h)).map (fun row => (coerceRow c e row).2.1)).sum ∧
      (applyActions rows [.coerceNumeric c e] h).rowsDropped
        = ((rows.drop (dataStart h)).map (fun row => (coerceRow c e row).2.2)).sum) ∧
    (∀ row : List String,
        (c < 0 ∨ ((row.length : ℤ) ≤ c) ∨ jsTrim (row.getD c.toNat "") = "") →
        coerceRow c e row = (some row, 0, 0)) ∧
    (∀ row row' : List String, (coerceRow c e row).1 = some row' →
        row'.length = row.length ∧
        ∀ j : ℕ, (j : ℤ) ≠ c → row'.getD j "" = row.getD j "") ∧
    (∀ row ∈ ((applyActions rows [.coerceNumeric c e] h).rows).drop (dataStart h),
      ∃ row₀ ∈ rows.drop (dataStart h), row.length = row₀.length ∧
        ∀ j : ℕ, (j : ℤ) ≠ c → row.getD j "" = row₀.getD j "") ∧
    ((∀ row ∈ rows.drop (dataStart h),
        c < 0 ∨ ((row.length : ℤ) ≤ c) ∨ jsTrim (row.getD c.toNat "") = "") →
      applyActions rows [.coerceNumeric c e] h = ⟨rows, 0, 0⟩) := by
  have hrows : (applyActions rows [.coerceNumeric c e] h).rows
      = rows.take (dataStart h) ++ (coerceAux c e (rows.drop (dataStart h))).1 := rfl
  have hch : (applyActions rows [.coerceNumeric c e] h).rowsChanged
      = (coerceAux c e (rows.drop (dataStart h))).2.1 + 0 := rfl
  have hdr : (applyActions rows [.coerceNumeric c e] h).rowsDropped
      = (coerceAux c e (rows.drop (dataStart h))).2.2 + 0 := rfl
  have hdec := coerceAux_decomp c e (rows.drop (dataStart h))
  refine ⟨?_, ⟨?_, ?_, ?_⟩, ?_, ?_, ?_, ?_⟩
  · rw [hrows]
    cases h with
    | false => rfl
    | true =>
      cases rows with
      | nil => rfl
      | cons r rs => rfl
  · rw [hrows, hdec]
  · rw [hch, hdec]
    simp
  · rw [hdr, hdec]
    simp
  · exact fun row hh => coerceRow_skip hh
  · intro row row' hfst
    rcases hres : coerceRow c e row with ⟨ro, ch, dr⟩
    rw [hres] at hfst
    have hfst' : ro = some row' := hfst
    subst hfst'
    exact coerceRow_frame hres
  · intro row hrow
    rw [hrows] at hrow
    cases h with
    | false =>
      simp only [dataStart, if_neg (by decide : ¬(false = true)), List.take_zero,
        List.drop_zero, List.nil_append] at hrow ⊢
      exact coerceAux_frame c e rows row hrow
    | true =>
      cases rows with
      | nil => simp [dataStart, coerceAux] at hrow
      | cons r rs =>
        simp only [dataStart, if_pos rfl, List.take_cons, List.take_zero,
          List.drop_succ_cons, List.drop_zero] at hrow ⊢
        exact coerceAux_frame c e rs row (by simpa using hrow)
  · intro hall
    have hstep : coerceStep h c e rows = (rows, 0, 0) := by
      show (rows.take (dataStart h) ++ (coerceAux c e (rows.drop (dataStart h))).1,
        (coerceAux c e (rows.drop (dataStart h))).2.1,
        (coerceAux c e (rows.drop (dataStart h))).2.2) = (rows, 0, 0)
      rw [coerceAux_skip c e _ hall]
      rw [List.take_append_drop]
    have ha : applyAction h rows (.coerceNumeric c e) = (rows, 0, 0) := hstep
    rw [applyActions_cons, ha]
    rfl

/-- Witness for `coerce_frame`: a mixed table in which one data row is
canonicalized, one is dropped, and the blank-cell row is retained verbatim
with zero deltas; plus the whole-table no-op case. -/
theorem coerce_frame_witness :
    coerceRow 1 CoerceOnError.dropRow ["a", " "] = (some ["a", " "], 0, 0) ∧
    (applyActions [["h", "x"], ["a", " "], ["b", "2.0"], ["d", "zz"]]
        [CleaningAction.coerceNumeric 1 CoerceOnError.dropRow] true).rows
      = [["h", "x"], ["a", " "], ["b", "2"]] ∧
    applyActions [["a", " "]] [.coerceNumeric 1 .dropRow] false
      = ⟨[["a", " "]], 0, 0⟩ :=
  ⟨(coerce_frame [["h", "x"], ["a", " "], ["b", "2.0"], ["d", "zz"]] 1
      .dropRow true).2.2.1 ["a", " "] (by decide),
   ((coerce_frame [["h", "x"], ["a", " "], ["b", "2.0"], ["d", "zz"]] 1
      .dropRow true).2.1.1).trans (by decide),
   (coerce_frame [["a", " "]] 1 .dropRow false).2.2.2.2.2 (by decide)⟩

/-! ### `buildSample` lemmas -/

/-- The line split always yields at least one line. -/
theorem splitLinesCh_ne_nil (l : List Char) : splitLinesCh l ≠ [] := by
  rw [splitLinesCh.eq_def]
  split
  · simp
  · simp
  · simp
  · rcases hx : splitLinesCh _ with _ | ⟨a, as⟩ <;> simp [consHeadLine, hx]

/-- `noCRLF` passes to the tail. -/
theorem noCRLF_cons {c : Char} {rest : List Char}
    (h : noCRLF (c :: rest) = true) : noCRLF rest = true := by
  rw [noCRLF.eq_def] at h
  split at h
  · simp at h
  · next heq =>
    injection heq with h1 h2
    rw [h2]
    exact h
  · next x heq => simp at heq

/-- Joining after prepending a character to the first line. -/
theorem joinLF_consHeadLine (c : Char) {L : List (List Char)} (hL : L ≠ []) :
    joinLF (consHeadLine c L) = c :: joinLF L := by
  cases L with
  | nil => exact absurd rfl hL
  | cons a as =>
    cases as with
    | nil => rfl
    | cons b bs => rfl

/-- Splitting on `/\r?\n/` and rejoining with `'\n'` is the identity on text
without CRLF pairs. -/
theorem joinLF_splitLinesCh (N : ℕ) :
    ∀ l : List Char, l.length ≤ N → noCRLF l = true →
      joinLF (splitLinesCh l) = l := by
  induction N with
  | zero =>
    intro l hl _
    have hnil : l = [] := List.length_eq_zero.mp (by omega)
    subst hnil
    rfl
  | succ N ihN =>
    intro l hl h
    rw [splitLinesCh.eq_def]
    split
    · rfl
    · next rest =>
      have hrest : noCRLF rest = true := noCRLF_cons h
      have ih := ihN rest (by simp at hl; omega) hrest
      rcases hx : splitLinesCh rest with _ | ⟨a, as⟩
      · exact absurd hx (splitLinesCh_ne_nil rest)
      · rw [hx] at ih
        show [] ++ '\n' :: joinLF (a :: as) = '\n' :: rest
        rw [List.nil_append, ih]
    · next rest =>
      exfalso
      have : noCRLF ('\r' :: '\n' :: rest) = false := rfl
      rw [this] at h
      exact absurd h (by simp)
    · next c rest hne1 hne2 =>
      have hrest : noCRLF rest = true := noCRLF_cons h
      have ih := ihN rest (by simp at hl; omega) hrest
      rw [joinLF_consHeadLine c (splitLinesCh_ne_nil rest), ih]

/-- C9 (amended): `buildSample` with `maxLines = 50` returns the text itself
unchanged whenever the text has at most 50 lines and contains no CRLF pair —
the join normalizes `"\r\n"` separators to `"\n"`, so CRLF text is
rewritten even when short. -/
theorem buildSample_identity_small_lf (s : String)
    (h1 : noCRLF s.data = true) (h2 : (splitLinesCh s.data).length ≤ 50) :
    buildSample s 50 = s := by
  unfold buildSample
  rw [List.take_of_length_le h2]
  rw [joinLF_splitLinesCh s.data.length s.data le_rfl h1]

/-- Witness for `buildSample_identity_small_lf` on LF-separated text. -/
theorem buildSample_identity_small_lf_witness : buildSample "a\nb" 50 = "a\nb" :=
  buildSample_identity_small_lf "a\nb" (by decide) (by decide)

/-- C6 (amended): the numeric parse of `COERCE_NUMERIC` is the single
ECMAScript `Number(string)` rule, which accepts a leading `'+'`: a trimmed
cell of `'+'` followed by decimal digits parses successfully, so the
`onError` branch is not applied — `"+5"` is canonicalized to `"5"` rather
than treated as an error; separators outside the grammar (for example a
thousands separator) still fail the parse. -/
theorem number_accepts_leading_plus :
    (∀ ds : List Char, ds ≠ [] → (∀ c ∈ ds, isDigitCh c = true) →
      (parseJsNum ('+' :: ds)).isSome = true) ∧
    parseJsNum ("1,000".data) = none ∧
    applyActions [["+5"]] [.coerceNumeric 0 .setNull] false = ⟨[["5"]], 1, 0⟩ := by
  refine ⟨?_, by decide, by decide⟩
  intro ds hne hall
  rw [parseJsNum_not_radix (by
    intro c rest heq
    injection heq with hx _
    exact absurd hx (by decide))]
  rw [show parseDecSigned ('+' :: ds) = parseUnsignedBody false ds from rfl]
  exact parseUnsignedBody_of_dec (parseDec_digits hne hall)

/-- Witness for `number_accepts_leading_plus` on the digit string `"7"`. -/
theorem number_accepts_leading_plus_witness :
    (parseJsNum ('+' :: ['7'])).isSome = true :=
  number_accepts_leading_plus.1 ['7'] (by decide) (by decide)

/-! ### Normalizer characterization lemmas -/

/-- Evaluation of `mapToCleaningActions` on a single object candidate, as a
function of its fields. -/
theorem mapToCleaningActions_obj_eval (fs : List (String × JsValue)) :
    mapToCleaningActions [JsValue.obj fs]
      = (match (fs.lookup "type").getD .undefinedVal with
        | .str s =>
          if s = "TRIM_WHITESPACE" then .ok [.trimWhitespace]
          else if s = "STRIP_WRAPPING_QUOTES" then .ok [.stripWrappingQuotes]
          else if s = "ENSURE_EQUAL_COLUMNS" then
            .ok [.ensureEqualColumns
              (match (fs.lookup "mode").getD .undefinedVal with
               | .str "pad-with-empty" => .padWithEmpty
               | _ => .dropRow)]
          else if s = "REMOVE_EMPTY_ROWS" then .ok [.removeEmptyRows]
          else if s = "COERCE_NUMERIC" then
            (match (fs.lookup "columnIndex").getD .undefinedVal with
            | .num n =>
              .ok [.coerceNumeric n
                (match (fs.lookup "onError").getD .undefinedVal with
                 | .str "set-null" => .setNull
                 | .str "set-zero" => .setZero
                 | .str "drop-row" => .dropRow
                 | _ => .dropRow)]
            | _ => .ok [])
          else .ok []
        | _ => .ok []) := rfl

/-- Evaluation of the `analyzeCsv` per-action mapping on an object
candidate. -/
theorem analyzeActionOfRaw_obj_eval (fs : List (String × JsValue)) :
    analyzeActionOfRaw (JsValue.obj fs)
      = .ok ⟨(match (fs.lookup "type").getD .undefinedVal with
              | .str s => s
              | .num n => jsStringOfInt n
              | .bool b => if b then "true" else "false"
              | _ => "unknown"),
             (match (fs.lookup "column_index").getD .undefinedVal with
              | .num n => some n
              | _ =>
                match (fs.lookup "columnIndex").getD .undefinedVal with
                | .num n => some n
                | _ => none)⟩ := rfl

/-- The composed path on one candidate reduces to normalizing its mapped
`{type, columnIndex}` object. -/
theorem analyzedThenNormalized_obj_eval (fs : List (String × JsValue))
    (x : AnalyzeAction) (h : analyzeActionOfRaw (JsValue.obj fs) = .ok x) :
    analyzedThenNormalized [JsValue.obj fs]
      = mapToCleaningActions [analyzeActionToJs x] := by
  unfold analyzedThenNormalized mapAnalyzeList
  rw [h]
  rfl

/-- Normalizing a mapped `{type, columnIndex}` object. -/
theorem mapToCleaningActions_toJs (t : String) (ci : Option ℤ) :
    mapToCleaningActions [analyzeActionToJs ⟨t, ci⟩]
      = (if t = "TRIM_WHITESPACE" then .ok [.trimWhitespace]
          else if t = "STRIP_WRAPPING_QUOTES" then .ok [.stripWrappingQuotes]
          else if t = "ENSURE_EQUAL_COLUMNS" then .ok [.ensureEqualColumns .dropRow]
          else if t = "REMOVE_EMPTY_ROWS" then .ok [.removeEmptyRows]
          else if t = "COERCE_NUMERIC" then
            (match ci with
            | some n => .ok [.coerceNumeric n .dropRow]
            | none => .ok [])
          else .ok []) := by
  cases ci <;> rfl

/-- The mapped `type` string is the coercion action name exactly when the
raw field is that string (a stringified number or boolean never collides). -/
theorem analyze_type_coerce_iff (t : JsValue) :
    (match t with
     | .str s => s
     | .num n => jsStringOfInt n
     | .bool b => if b then "true" else "false"
     | _ => "unknown") = "COERCE_NUMERIC" ↔ t = .str "COERCE_NUMERIC" := by
  cases t with
  | str s => simp
  | num n => simp [jsStringOfInt_ne_coerce n]
  | bool b => cases b <;> simp
  | null => simp
  | undefinedVal => simp
  | arr el => simp
  | obj gfs => simp

/-- Complete characterization of when one object candidate normalizes to a
coercion action. -/
theorem mapToCleaningActions_obj_coerce (fs : List (String × JsValue))
    (n : ℤ) (e : CoerceOnError) :
    mapToCleaningActions [.obj fs] = .ok [.coerceNumeric n e] ↔
    ((fs.lookup "type").getD .undefinedVal = .str "COERCE_NUMERIC" ∧
     (fs.lookup "columnIndex").getD .undefinedVal = .num n ∧
     e = (match (fs.lookup "onError").getD .undefinedVal with
          | .str "set-null" => .setNull
          | .str "set-zero" => .setZero
          | .str "drop-row" => .dropRow
          | _ => .dropRow)) := by
  rw [mapToCleaningActions_obj_eval]
  rcases ht : (fs.lookup "type").getD JsValue.undefinedVal with _ | _ | b | m | s | el | gfs
  · simp
  · simp
  · simp
  · simp
  · dsimp only
    by_cases h1 : s = "TRIM_WHITESPACE"
    · subst h1; simp
    · by_cases h2 : s = "STRIP_WRAPPING_QUOTES"
      · subst h2; simp
      · by_cases h3 : s = "ENSURE_EQUAL_COLUMNS"
        · subst h3; simp
        · by_cases h4 : s = "REMOVE_EMPTY_ROWS"
          · subst h4; simp
          · by_cases h5 : s = "COERCE_NUMERIC"
            · subst h5
              rw [if_neg h1, if_neg h2, if_neg h3, if_neg h4, if_pos rfl]
              rcases hci : (fs.lookup "columnIndex").getD JsValue.undefinedVal
                with _ | _ | b2 | m2 | s2 | el2 | gfs2
              · simp
              · simp
              · simp
              · simp only [Except.ok.injEq, List.cons.injEq, and_true,
                  CleaningAction.coerceNumeric.injEq, JsValue.num.injEq, true_and]
                constructor
                · intro ⟨hn, he⟩
                  exact ⟨hn, he.symm⟩
                · intro ⟨hn, he⟩
                  exact ⟨hn, he.symm⟩
              · simp
              · simp
              · simp
            · rw [if_neg h1, if_neg h2, if_neg h3, if_neg h4, if_neg h5]
              simp [h5]
  · simp
  · simp

/-- C4 (amended): `mapToCleaningActions` emits `COERCE_NUMERIC` exactly when
the candidate's `type` is the string `COERCE_NUMERIC` and its `columnIndex`
field — that spelling only — is numeric, and the emitted index is that field's
value verbatim, never defaulted; the snake-case spelling `column_index` is
translated into `columnIndex` one stage earlier (the `analyzeCsv` mapping),
so the composed pipeline accepts either spelling. -/
theorem coerce_normalization_characterization :
    (∀ fs : List (String × JsValue),
      (∃ n e, mapToCleaningActions [.obj fs] = .ok [.coerceNumeric n e]) ↔
      ((fs.lookup "type").getD .undefinedVal = .str "COERCE_NUMERIC" ∧
       ∃ n, (fs.lookup "columnIndex").getD .undefinedVal = .num n)) ∧
    (∀ (fs : List (String × JsValue)) (n : ℤ) (e : CoerceOnError),
      mapToCleaningActions [.obj fs] = .ok [.coerceNumeric n e] →
      (fs.lookup "columnIndex").getD .undefinedVal = .num n) ∧
    (∀ fs : List (String × JsValue),
      (∃ n e, analyzedThenNormalized [.obj fs] = .ok [.coerceNumeric n e]) ↔
      ((fs.lookup "type").getD .undefinedVal = .str "COERCE_NUMERIC" ∧
       ((∃ n, (fs.lookup "column_index").getD .undefinedVal = .num n) ∨
        (∃ n, (fs.lookup "columnIndex").getD .undefinedVal = .num n)))) := by
  refine ⟨?_, ?_, ?_⟩
  · intro fs
    constructor
    · intro ⟨n, e, hmap⟩
      obtain ⟨ht, hci, -⟩ := (mapToCleaningActions_obj_coerce fs n e).mp hmap
      exact ⟨ht, n, hci⟩
    · intro ⟨ht, n, hci⟩
      exact ⟨n, _, (mapToCleaningActions_obj_coerce fs n _).mpr ⟨ht, hci, rfl⟩⟩
  · intro fs n e hmap
    exact ((mapToCleaningActions_obj_coerce fs n e).mp hmap).2.1
  · intro fs
    rw [analyzedThenNormalized_obj_eval fs _ (analyzeActionOfRaw_obj_eval fs),
      mapToCleaningActions_toJs]
    constructor
    · intro ⟨n, e, hmap⟩
      by_cases hT1 : (match (fs.lookup "type").getD JsValue.undefinedVal with
          | .str s => s
          | .num n => jsStringOfInt n
          | .bool b => if b then "true" else "false"
          | _ => "unknown") = "TRIM_WHITESPACE"
      · rw [if_pos hT1] at hmap
        simp at hmap
      · rw [if_neg hT1] at hmap
        by_cases hT2 : (match (fs.lookup "type").getD JsValue.undefinedVal with
            | .str s => s
            | .num n => jsStringOfInt n
            | .bool b => if b then "true" else "false"
            | _ => "unknown") = "STRIP_WRAPPING_QUOTES"
        · rw [if_pos hT2] at hmap
          simp at hmap
        · rw [if_neg hT2] at hmap
          by_cases hT3 : (match (fs.lookup "type").getD JsValue.undefinedVal with
              | .str s => s
              | .num n => jsStringOfInt n
              | .bool b => if b then "true" else "false"
              | _ => "unknown") = "ENSURE_EQUAL_COLUMNS"
          · rw [if_pos hT3] at hmap
            simp at hmap
          · rw [if_neg hT3] at hmap
            by_cases hT4 : (match (fs.lookup "type").getD JsValue.undefinedVal with
                | .str s => s
                | .num n => jsStringOfInt n
                | .bool b => if b then "true" else "false"
                | _ => "unknown") = "REMOVE_EMPTY_ROWS"
            · rw [if_pos hT4] at hmap
              simp at hmap
            · rw [if_neg hT4] at hmap
              by_cases hT5 : (match (fs.lookup "type").getD JsValue.undefinedVal with
                  | .str s => s
                  | .num n => jsStringOfInt n
                  | .bool b => if b then "true" else "false"
                  | _ => "unknown") = "COERCE_NUMERIC"
              · rw [if_pos hT5] at hmap
                refine ⟨(analyze_type_coerce_iff _).mp hT5, ?_⟩
                rcases hc1 : (fs.lookup "column_index").getD JsValue.undefinedVal
                  with _ | _ | b1 | m1 | s1 | el1 | gfs1
                all_goals rw [hc1] at hmap
                any_goals exact Or.inl ⟨_, rfl⟩
                all_goals
                  rcases hc2 : (fs.lookup "columnIndex").getD JsValue.undefinedVal
                    with _ | _ | b2 | m2 | s2 | el2 | gfs2
                all_goals rw [hc2] at hmap
                all_goals
                  first
                  | exact Or.inr ⟨_, rfl⟩
                  | simp at hmap
              · rw [if_neg hT5] at hmap
                simp at hmap
    · intro ⟨htype, hcol⟩
      have hT : (match (fs.lookup "type").getD JsValue.undefinedVal with
          | .str s => s
          | .num n => jsStringOfInt n
          | .bool b => if b then "true" else "false"
          | _ => "unknown") = "COERCE_NUMERIC" :=
        (analyze_type_coerce_iff _).mpr htype
      rw [if_neg (by rw [hT]; decide), if_neg (by rw [hT]; decide),
        if_neg (by rw [hT]; decide), if_neg (by rw [hT]; decide), if_pos hT]
      rcases hc1 : (fs.lookup "column_index").getD JsValue.undefinedVal
        with _ | _ | b1 | m1 | s1 | el1 | gfs1
      any_goals exact ⟨_, .dropRow, rfl⟩
      all_goals
        rcases hcol with ⟨n, hsn⟩ | ⟨n, hcam⟩
      all_goals
        first
        | (rw [hc1] at hsn; simp at hsn)
        | (rw [hcam]; exact ⟨n, .dropRow, rfl⟩)

/-- Witness for `coerce_normalization_characterization` on concrete
candidates of each spelling. -/
theorem coerce_normalization_characterization_witness :
    (∃ n e, mapToCleaningActions
        [JsValue.obj [("type", .str "COERCE_NUMERIC"), ("columnIndex", .num 3)]]
        = .ok [.coerceNumeric n e]) ∧
    (∃ n e, analyzedThenNormalized
        [JsValue.obj [("type", .str "COERCE_NUMERIC"), ("column_index", .num 4)]]
        = .ok [.coerceNumeric n e]) :=
  ⟨(coerce_normalization_characterization.1 _).mpr ⟨rfl, 3, rfl⟩,
   (coerce_normalization_characterization.2.2 _).mpr ⟨rfl, Or.inl ⟨4, rfl⟩⟩⟩
